import Mathlib

/-!
Verification development for the l0ss-client lossy-compression engines.

The JavaScript sources are embedded shallowly: strings are Lean `String`s,
JS numbers are modelled as exact rationals (`ℚ`) — decimal literals and the
decimal arithmetic used by the engines are represented exactly, rather than
as binary64 floating point — and the mutable operation log threaded through
each engine becomes an explicit accumulator list.
-/

set_option maxRecDepth 4000
set_option synthInstance.maxSize 2000

/-- Whitespace class used by JS `trim`, `parseFloat` and the `\s` regex class
(ASCII subset actually exercised by the engines). -/
def jsIsWS (c : Char) : Bool :=
  c = ' ' ∨ c = '\t' ∨ c = '\n' ∨ c = '\r' ∨ c = '\x0b' ∨ c = '\x0c'

/-- JS `String.prototype.trim`. -/
def jsTrim (s : String) : String :=
  ⟨((s.data.dropWhile jsIsWS).reverse.dropWhile jsIsWS).reverse⟩

/-- JS `String.prototype.length` (UTF-16 code units; the engines only ever
measure BMP text, where this equals the codepoint count). -/
def jsLength (s : String) : Nat := s.data.length

/-- Split a character list at every occurrence of `sep` (JS
`String.prototype.split` with a single-character separator). -/
def splitChars (sep : Char) : List Char → List (List Char)
  | [] => [[]]
  | c :: cs =>
    let rest := splitChars sep cs
    if c = sep then [] :: rest
    else match rest with
      | [] => [[c]]
      | piece :: more => (c :: piece) :: more

/-- JS `s.split(sep)` for a one-character separator. -/
def jsSplit (sep : Char) (s : String) : List String :=
  (splitChars sep s.data).map String.mk

/-- JS `Array.prototype.join(sep)` for a one-character separator. -/
def joinSep (sep : Char) : List String → String
  | [] => ""
  | [x] => x
  | x :: xs => x ++ String.singleton sep ++ joinSep sep xs

/-- First-occurrence-preserving deduplication (JS `new Set(xs)` iterated in
insertion order). -/
def dedupKeepFirst : List String → List String :=
  go []
where
  go (seen : List String) : List String → List String
    | [] => []
    | x :: xs => if x ∈ seen then go seen xs else x :: go (x :: seen) xs

/-- Stable insertion sort by a boolean "not after" relation; matches the
observable result of JS `Array.prototype.sort` with a consistent comparator. -/
def insertBy (le : α → α → Bool) (x : α) : List α → List α
  | [] => [x]
  | y :: ys => if le x y then x :: y :: ys else y :: insertBy le x ys

/-- Stable sort driver for `insertBy`. -/
def stableSortBy (le : α → α → Bool) : List α → List α
  | [] => []
  | x :: xs => insertBy le x (stableSortBy le xs)

/-- The decimal digit character for `d` (used for `d < 10` only). -/
def digitOf (d : Nat) : Char :=
  match d with
  | 0 => '0' | 1 => '1' | 2 => '2' | 3 => '3' | 4 => '4'
  | 5 => '5' | 6 => '6' | 7 => '7' | 8 => '8' | _ => '9'

/-- Little-endian decimal digits, fuel-bounded so the definition is
structural (and hence kernel-reducible); `natDigitsLE` supplies enough fuel
for any input. -/
def natDigitsLEFuel : Nat → Nat → List Char
  | 0, _ => []
  | fuel + 1, n =>
    digitOf (n % 10) ::
      (if n / 10 = 0 then [] else natDigitsLEFuel fuel (n / 10))

/-- Little-endian decimal digits of a natural number (always nonempty). -/
def natDigitsLE (n : Nat) : List Char := natDigitsLEFuel (n + 1) n

/-- Usual (big-endian) decimal rendering of a natural number. -/
def natDigits (n : Nat) : List Char := (natDigitsLE n).reverse

/-- Decimal rendering of a natural number as a string. -/
def natStr (n : Nat) : String := ⟨natDigits n⟩

/-- Numeric value of a big-endian list of decimal digit characters. -/
def digitsVal (ds : List Char) : Nat :=
  ds.foldl (fun a c => 10 * a + (c.toNat - 48)) 0

/-- Pad a digit list on the left with `'0'` up to length `n`. -/
def padZeros (n : Nat) (ds : List Char) : List Char :=
  List.replicate (n - ds.length) '0' ++ ds

/-! Rational arithmetic wrappers.  The core `Rat.add`/`Rat.mul`/… are
`@[extern]` definitions that do not reduce inside the kernel, so every
rational computation of the embedding goes through these `mkRat`-based
equivalents (proved equal to the standard operations below), keeping all
concrete runs checkable by `decide`. -/

def qNeg (q : ℚ) : ℚ := mkRat (-q.num) q.den

def qAdd (a b : ℚ) : ℚ :=
  mkRat (a.num * (b.den : Int) + b.num * (a.den : Int)) (a.den * b.den)

def qSub (a b : ℚ) : ℚ := qAdd a (qNeg b)

def qMul (a b : ℚ) : ℚ := mkRat (a.num * b.num) (a.den * b.den)

def qInv (q : ℚ) : ℚ :=
  if q.num < 0 then mkRat (-(q.den : Int)) q.num.natAbs
  else mkRat (q.den : Int) q.num.natAbs

def qDiv (a b : ℚ) : ℚ := qMul a (qInv b)

def qPowN (q : ℚ) : Nat → ℚ
  | 0 => 1
  | n + 1 => qMul (qPowN q n) q

def qPowZ (q : ℚ) (e : Int) : ℚ :=
  if e < 0 then qInv (qPowN q (-e).toNat) else qPowN q e.toNat

def qAbs (q : ℚ) : ℚ := if q < 0 then qNeg q else q

def qSum (xs : List ℚ) : ℚ := xs.foldl qAdd 0

def qFloor (q : ℚ) : Int := Rat.floor q

theorem qNeg_eq (q : ℚ) : qNeg q = -q := by
  rw [qNeg, Rat.mkRat_eq_div]
  push_cast
  rw [neg_div, Rat.num_div_den]

theorem qAdd_eq (a b : ℚ) : qAdd a b = a + b := by
  have ha : (a.den : ℚ) ≠ 0 := Nat.cast_ne_zero.mpr a.den_nz
  have hb : (b.den : ℚ) ≠ 0 := Nat.cast_ne_zero.mpr b.den_nz
  rw [qAdd, Rat.mkRat_eq_div]
  conv_rhs =>
    rw [← Rat.num_div_den a, ← Rat.num_div_den b, div_add_div _ _ ha hb]
  push_cast
  ring_nf

theorem qSub_eq (a b : ℚ) : qSub a b = a - b := by
  rw [qSub, qAdd_eq, qNeg_eq, sub_eq_add_neg]

theorem qMul_eq (a b : ℚ) : qMul a b = a * b := by
  rw [qMul, Rat.mkRat_eq_div]
  conv_rhs =>
    rw [← Rat.num_div_den a, ← Rat.num_div_den b, div_mul_div_comm]
  push_cast
  ring_nf

theorem qInv_eq (q : ℚ) : qInv q = q⁻¹ := by
  rcases lt_trichotomy q.num 0 with h | h | h
  · rw [qInv, if_pos h, Rat.mkRat_eq_div]
    rw [show ((q.num.natAbs : ℕ) : ℚ) = -(q.num : ℚ) by
      calc ((q.num.natAbs : ℕ) : ℚ) = ((q.num.natAbs : ℤ) : ℚ) := by
            rw [Int.cast_natCast]
        _ = ((-q.num : ℤ) : ℚ) := by
            rw [Int.ofNat_natAbs_of_nonpos (le_of_lt h)]
        _ = -(q.num : ℚ) := by push_cast; ring]
    conv_rhs => rw [← Rat.num_div_den q, inv_div]
    push_cast
    rw [neg_div_neg_eq]
  · rw [qInv, if_neg (by omega)]
    have hq : q = 0 := by
      have := Rat.num_div_den q
      rw [h] at this
      simpa using this.symm
    rw [hq, Rat.mkRat_eq_div]
    simp [h]
  · rw [qInv, if_neg (by omega), Rat.mkRat_eq_div]
    rw [show ((q.num.natAbs : ℕ) : ℚ) = (q.num : ℚ) by
      calc ((q.num.natAbs : ℕ) : ℚ) = ((q.num.natAbs : ℤ) : ℚ) := by
            rw [Int.cast_natCast]
        _ = (q.num : ℚ) := by rw [Int.natAbs_of_nonneg (le_of_lt h)]]
    conv_rhs => rw [← Rat.num_div_den q, inv_div]
    push_cast
    ring_nf

theorem qDiv_eq (a b : ℚ) : qDiv a b = a / b := by
  rw [qDiv, qMul_eq, qInv_eq, div_eq_mul_inv]

theorem qPowN_eq (q : ℚ) (n : Nat) : qPowN q n = q ^ n := by
  induction n with
  | zero => rfl
  | succ n ih => rw [qPowN, ih, pow_succ, qMul_eq]

theorem qPowZ_eq (q : ℚ) (e : Int) : qPowZ q e = q ^ e := by
  rw [qPowZ]
  split
  · rename_i h
    rw [qInv_eq, qPowN_eq, ← zpow_natCast q (-e).toNat, ← zpow_neg]
    congr 1
    omega
  · rename_i h
    rw [qPowN_eq, ← zpow_natCast q e.toNat]
    congr 1
    omega

theorem qAbs_eq (q : ℚ) : qAbs q = |q| := by
  rw [qAbs]
  split
  · rename_i h
    rw [qNeg_eq, abs_of_neg h]
  · rename_i h
    rw [abs_of_nonneg (not_lt.mp h)]

theorem qSum_eq (xs : List ℚ) : qSum xs = xs.sum := by
  have aux : ∀ (l : List ℚ) (a : ℚ), l.foldl qAdd a = a + l.sum := by
    intro l
    induction l with
    | nil => intro a; simp
    | cons x xs ih =>
      intro a
      simp only [List.foldl_cons, List.sum_cons, qAdd_eq, ih]
      ring
  rw [qSum, aux]
  simp

/-- Sign consumed by `parseFloat`: returns the sign factor and the rest. -/
def readSign : List Char → ℚ × List Char
  | [] => (1, [])
  | c :: cs =>
    if c = '-' then (-1, cs)
    else if c = '+' then (1, cs)
    else (1, c :: cs)

/-- Exponent tail of a JS decimal literal after the `e`/`E` marker. -/
def readExpTail (cs : List Char) : ℤ :=
  let (sgn, cs) : ℤ × List Char :=
    match cs with
    | [] => (1, [])
    | c :: rest =>
      if c = '-' then (-1, rest)
      else if c = '+' then (1, rest)
      else (1, c :: rest)
  let (ds, _) := cs.span Char.isDigit
  if ds.isEmpty then 0 else sgn * digitsVal ds

/-- Exponent part of a JS decimal literal; an `e` not followed by digits is
not part of the longest valid prefix and contributes exponent `0`. -/
def readExp : List Char → ℤ
  | [] => 0
  | c :: cs => if c = 'e' ∨ c = 'E' then readExpTail cs else 0

/-- Fraction part of a JS decimal literal: digits after a leading `'.'`. -/
def readFrac : List Char → List Char × List Char
  | [] => ([], [])
  | c :: rest =>
    if c = '.' then rest.span Char.isDigit else ([], c :: rest)

/-- `parseFloat` after whitespace and sign handling. -/
def jsParseFloatCore (sgn : ℚ) (cs : List Char) : Option ℚ :=
  let (ids, cs) := cs.span Char.isDigit
  let (fds, cs) := readFrac cs
  if ids.isEmpty ∧ fds.isEmpty then none
  else
    let base : ℚ :=
      qAdd (digitsVal ids : ℚ) (qDiv (digitsVal fds : ℚ) (qPowN 10 fds.length))
    some (qMul (qMul sgn base) (qPowZ 10 (readExp cs)))

/-- JS `parseFloat`: longest valid decimal-literal prefix after leading
whitespace, `none` standing for `NaN`.  (The `Infinity` literal is not
modelled; no engine input class produces it.) -/
def jsParseFloat (s : String) : Option ℚ :=
  let cs := s.data.dropWhile jsIsWS
  let (sgn, cs) := readSign cs
  jsParseFloatCore sgn cs

/-- JS `Number.prototype.toFixed(d)`: sign taken first, then the magnitude is
rounded half-up to `d` decimals (ECMA-262 "pick the larger n"). -/
def jsToFixed (d : Nat) (q : ℚ) : String :=
  let m : Nat :=
    (qFloor (qAdd (qMul (qAbs q) (qPowN 10 d)) (mkRat 1 2))).toNat
  (if q < 0 then "-" else "") ++
    (if d = 0 then natStr m
     else natStr (m / 10 ^ d) ++ "." ++ ⟨padZeros d (natDigits (m % 10 ^ d))⟩)

/-- Smallest scale `s ≤ 1100` such that `q·10^s` is an integer.  Every IEEE
binary64 value is exactly representable this way (denominators are powers of
two below `2^1074`), so for the numbers the engines actually produce the
search always succeeds. -/
def findScale (q : ℚ) : Option Nat :=
  (List.range 1101).find? (fun s => (qMul q (qPowN 10 s)).den = 1)

/-- JS `Number.prototype.toString` for the (finite-decimal) values the
engines produce: minimal decimal expansion, no trailing zeros, no exponent
form.  Rationals outside the binary64-representable set cannot occur as JS
numbers; they fall back to `"0"`. -/
def numToString (q : ℚ) : String :=
  (if q < 0 then "-" else "") ++
    (match findScale (qAbs q) with
     | some s =>
       let n : Nat := (qMul (qAbs q) (qPowN 10 s)).num.toNat
       if s = 0 then natStr n
       else
         let ds := padZeros (s + 1) (natDigits n)
         ⟨ds.take (ds.length - s)⟩ ++ "." ++ ⟨ds.drop (ds.length - s)⟩
     | none => "0")

/-- UTF-8 byte length (JS `new Blob([s]).size`). -/
def blobSize (s : String) : Nat := s.utf8ByteSize

/-! ## Operation log and result records (shared by all engines) -/

/-- One logged transformation.  JS operation objects are heterogeneous
records; the union of the fields any embedded engine ever sets is modelled
with `Option` fields, `none` meaning the field is absent from the record. -/
structure Operation where
  type : String
  count : Option Nat := none
  decimals : Option Nat := none
  columns : Option Nat := none
  maxLength : Option Nat := none
  maxColumns : Option Nat := none
  maxDepth : Option Nat := none
  removed : Option Int := none
  kept : Option Nat := none
  column : Option Nat := none
  sampleRate : Option Nat := none
  original : Option Nat := none
  sampled : Option Nat := none
  uniqueValuesSaved : Option ℚ := none
  description : Option String := none
  mapping : Option (List (String × String)) := none
  reversible : Bool
  impact : String
  deriving Repr, DecidableEq

/-- Result record returned by every `compress<Format>` entry point. -/
structure CompressionResult where
  compressed : String
  operations : List Operation
  originalSize : Nat
  compressedSize : Nat
  deriving Repr, DecidableEq

/-- JS `customOptions.x !== false` (unset counts as enabled). -/
def optOn (o : Option Bool) : Bool := o ≠ some false

/-- JS truthiness of a boolean option (`customOptions.x` with unset = falsy). -/
def optTruthy (o : Option Bool) : Bool := o = some true

/-- JS `customOptions.x || d` for a numeric option. -/
def numOr (o : Option Nat) (d : Nat) : Nat :=
  match o with
  | some n => if n = 0 then d else n
  | none => d

/-! ## CSV engine (src/compression/csv.js) -/

structure CSVOptions where
  removeEmptyRows : Option Bool := none
  deduplicateRows : Option Bool := none
  roundNumbers : Option Bool := none
  deltaEncoding : Option Bool := none
  dictionaryEncoding : Option Bool := none
  removeLowVarianceColumns : Option Bool := none
  truncateText : Option Bool := none
  maxTextLength : Option Nat := none
  keepFirstNColumns : Option Bool := none
  maxColumns : Option Nat := none
  sampleRows : Option Bool := none
  sampleRate : Option Nat := none
  removeNonEssentialColumns : Option Bool := none
  essentialColumnIndices : Option (List Nat) := none
  removeOutliers : Option Bool := none
  statisticalSampling : Option Bool := none
  deriving Repr

/-- Intermediate `{header, dataLines}` state with the threaded operation log. -/
structure CSVStage where
  header : String
  dataLines : List String
  operations : List Operation
  deriving Repr

/-- A data row survives the empty-row filter iff some comma-split field is
nonempty after trimming. -/
def rowNonEmpty (line : String) : Bool :=
  (jsSplit ',' line).any (fun f => jsTrim f ≠ "")

/-- Trim every comma-split field of a row. -/
def trimLine (l : String) : String :=
  joinSep ',' ((jsSplit ',' l).map jsTrim)

/-- Number of fields changed by `trimLine` over all rows. -/
def trimFieldsCount (lines : List String) : Nat :=
  (lines.map (fun l => ((jsSplit ',' l).filter (fun f => jsTrim f ≠ f)).length)).sum

/-- `applyMinimalCSVCompression`. -/
def applyMinimalCSVCompression (header : String) (dataLines : List String)
    (operations : List Operation) (customOptions : CSVOptions) : CSVStage :=
  let (dataLines, operations) :=
    if optOn customOptions.removeEmptyRows then
      let kept := dataLines.filter rowNonEmpty
      if kept.length < dataLines.length then
        (kept, operations ++
          [({ type := "remove_empty_rows",
              count := some (dataLines.length - kept.length),
              reversible := false, impact := "low" } : Operation)])
      else (kept, operations)
    else (dataLines, operations)
  let trimmed := trimFieldsCount dataLines
  let dataLines := dataLines.map trimLine
  let operations :=
    if trimmed > 0 then
      operations ++
        [({ type := "trim_fields", count := some trimmed,
            reversible := false, impact := "low" } : Operation)]
    else operations
  { header, dataLines, operations }

/-- One field of the 2-decimal rounding pass (`roundNumbers` in
`applyModerateCSVCompression`): a field counts as rounded iff it parses and
is not blank. -/
def roundField (f : String) : String :=
  match jsParseFloat f with
  | some num => if jsTrim f ≠ "" then jsToFixed 2 num else f
  | none => f

/-- Whether a field is counted by the rounding pass. -/
def roundCounts (f : String) : Bool :=
  (jsParseFloat f).isSome ∧ jsTrim f ≠ ""

/-- Rounding pass applied to a whole row. -/
def roundLine (l : String) : String :=
  joinSep ',' ((jsSplit ',' l).map roundField)

/-- Write `v` at index `i`, extending with empty strings like a JS sparse
array assignment rendered through `join(',')`. -/
def listSet (fs : List String) (i : Nat) (v : String) : List String :=
  if i < fs.length then fs.set i v
  else fs ++ List.replicate (i - fs.length) "" ++ [v]

/-- Result of `applyDeltaEncoding`. -/
structure DeltaResult where
  header : String
  dataLines : List String
  count : Nat
  deriving Repr

/-- Column scan of `applyDeltaEncoding`: all values parse as numbers and some
consecutive pair differs by more than `0.01`. -/
def colNumericVariance (dataLines : List String) (colIndex : Nat) : Bool :=
  go dataLines none false
where
  go : List String → Option ℚ → Bool → Bool
    | [], _, hasVar => hasVar
    | line :: rest, prev, hasVar =>
      match (jsSplit ',' line).get? colIndex with
      | none => false
      | some value =>
        match jsParseFloat value with
        | none => false
        | some num =>
          if jsTrim value = "" then false
          else
            go rest (some num)
              (hasVar || (match prev with
                | some p => decide (qAbs (qSub num p) > mkRat 1 100)
                | none => false))

/-- Delta-encode one row (`applyDeltaEncoding`'s per-row loop); values are
guaranteed numeric by the column scan, so the `getD 0` defaults are inert. -/
def deltaEncodeLine (dataLines : List String) (numericColumns : List Nat)
    (rowIndex : Nat) (line : String) : String :=
  let fields := numericColumns.foldl (fun fs colIndex =>
    let currentValue := ((jsParseFloat ((fs.get? colIndex).getD "")).getD 0)
    if rowIndex = 0 then
      listSet fs colIndex (numToString currentValue)
    else
      let prevFields := jsSplit ',' ((dataLines.get? (rowIndex - 1)).getD "")
      let prevValue := (jsParseFloat ((prevFields.get? colIndex).getD "")).getD 0
      let delta := qSub currentValue prevValue
      listSet fs colIndex ((if delta ≥ 0 then "+" else "") ++ jsToFixed 2 delta))
    (jsSplit ',' line)
  joinSep ',' fields

/-- `applyDeltaEncoding`. -/
def applyDeltaEncoding (header : String) (dataLines : List String) : DeltaResult :=
  if dataLines.length < 2 then { header, dataLines, count := 0 }
  else
    let headerFields := jsSplit ',' header
    let numericColumns :=
      (List.range headerFields.length).filter (colNumericVariance dataLines)
    if numericColumns.isEmpty then { header, dataLines, count := 0 }
    else
      let encodedLines := dataLines.enum.map
        (fun p => deltaEncodeLine dataLines numericColumns p.1 p.2)
      let updatedHeader := joinSep ','
        (headerFields.enum.map (fun p =>
          if p.1 ∈ numericColumns then p.2 ++ "(Δ)" else p.2))
      { header := updatedHeader, dataLines := encodedLines,
        count := numericColumns.length }

/-- Result of `applyDictionaryEncoding`. -/
structure DictResult where
  header : String
  dataLines : List String
  count : Nat
  compressionRatio : ℚ
  deriving Repr

/-- Cell value as collected by `applyDictionaryEncoding`:
`fields[colIndex] ? fields[colIndex].trim() : ''`. -/
def dictCell (line : String) (colIndex : Nat) : String :=
  match (jsSplit ',' line).get? colIndex with
  | some s => if s = "" then "" else jsTrim s
  | none => ""

/-- All values of one column, as collected by `applyDictionaryEncoding`. -/
def dictColValues (dataLines : List String) (colIndex : Nat) : List String :=
  dataLines.map (fun line => dictCell line colIndex)

/-- `isNumericColumn` check of `applyDictionaryEncoding`: no nonempty value
fails to parse as a number. -/
def dictColNumeric (dataLines : List String) (colIndex : Nat) : Bool :=
  (dictColValues dataLines colIndex).all
    (fun v => v = "" || (jsParseFloat v).isSome)

/-- Selection predicate of `applyDictionaryEncoding` for one column, with the
column's `repetitionRate`. -/
def dictColSelected (dataLines : List String) (colIndex : Nat) :
    Option ℚ :=
  if dictColNumeric dataLines colIndex then none
  else
    let values := dictColValues dataLines colIndex
    let uniqueValues := dedupKeepFirst values
    let repetitionRate : ℚ :=
      qDiv (uniqueValues.length : ℚ) (values.length : ℚ)
    if uniqueValues.length ≥ 3 ∧ uniqueValues.length < values.length ∧
        repetitionRate < mkRat 4 5 then
      some repetitionRate
    else none

/-- Code-unit lexicographic `≤` on character lists (the comparison performed
by JS `Array.prototype.sort()`'s default string comparator). -/
def strLeAux : List Char → List Char → Bool
  | [], _ => true
  | _ :: _, [] => false
  | a :: as, b :: bs =>
    if a.toNat < b.toNat then true
    else if b.toNat < a.toNat then false
    else strLeAux as bs

/-- Code-unit lexicographic `≤` on strings. -/
def strLe (a b : String) : Bool := strLeAux a.data b.data

/-- Sorted dictionary of one selected column: unique values in JS default
(lexicographic) sort order; a value's code is its index in this list. -/
def dictSorted (dataLines : List String) (colIndex : Nat) : List String :=
  stableSortBy strLe (dedupKeepFirst (dictColValues dataLines colIndex))

/-- Index of the first occurrence of `value` (`Array.prototype.indexOf`-style
scan over the sorted unique values). -/
def indexOfStr (value : String) : List String → Nat
  | [] => 0
  | x :: xs => if x = value then 0 else indexOfStr value xs + 1

/-- Code assigned to `value` by the column dictionary (`dictionary[value]`);
the value is always present by construction. -/
def dictCode (sorted : List String) (value : String) : Nat :=
  indexOfStr value sorted

/-- `applyDictionaryEncoding`.  (The source's first `encodedLines` mapping
pass is a no-op whose result is discarded; it is not reproduced.) -/
def applyDictionaryEncoding (header : String) (dataLines : List String) :
    DictResult :=
  if dataLines.length < 2 then
    { header, dataLines, count := 0, compressionRatio := 0 }
  else
    let headerFields := jsSplit ',' header
    let selected := (List.range headerFields.length).filterMap
      (fun i => (dictColSelected dataLines i).map (fun r => (i, r)))
    if selected.isEmpty then
      { header, dataLines, count := 0, compressionRatio := 0 }
    else
      let finalEncodedLines := dataLines.map (fun line =>
        let fields := selected.foldl (fun fs p =>
          let colIndex := p.1
          let value :=
            match fs.get? colIndex with
            | some s => if s = "" then "" else jsTrim s
            | none => ""
          listSet fs colIndex (natStr (dictCode (dictSorted dataLines colIndex) value)))
          (jsSplit ',' line)
        joinSep ',' fields)
      let updatedHeader := joinSep ','
        (headerFields.enum.map (fun p =>
          if selected.any (fun q => q.1 = p.1) then p.2 ++ "(D)" else p.2))
      let avg : ℚ :=
        qMul (qDiv (qSum (selected.map (fun p => p.2))) (selected.length : ℚ)) 100
      { header := updatedHeader, dataLines := finalEncodedLines,
        count := selected.length,
        compressionRatio := (jsParseFloat (jsToFixed 1 avg)).getD 0 }

/-- Unique trimmed nonempty values of a column, as collected by the
low-variance-column removal pass (`if (fields[colIndex]) values.add(...)`). -/
def lowVarColValues (dataLines : List String) (colIndex : Nat) : List String :=
  dedupKeepFirst (dataLines.filterMap (fun line =>
    match (jsSplit ',' line).get? colIndex with
    | some s => if s = "" then none else some (jsTrim s)
    | none => none))

/-- Row-deduplication stage of `applyModerateCSVCompression`
(`new Set(dataLines)` iterated in insertion order). -/
def csvDedupStage (customOptions : CSVOptions) (st : CSVStage) : CSVStage :=
  if optOn customOptions.deduplicateRows then
    let uniq := dedupKeepFirst st.dataLines
    if uniq.length < st.dataLines.length then
      { st with
        dataLines := uniq,
        operations := st.operations ++
          [({ type := "deduplicate_rows",
              count := some (st.dataLines.length - uniq.length),
              reversible := false, impact := "medium" } : Operation)] }
    else { st with dataLines := uniq }
  else st

/-- Numeric-rounding stage of `applyModerateCSVCompression`. -/
def csvRoundStage (customOptions : CSVOptions) (st : CSVStage) : CSVStage :=
  if optOn customOptions.roundNumbers then
    let rounded :=
      (st.dataLines.map (fun l => ((jsSplit ',' l).filter roundCounts).length)).sum
    let lines := st.dataLines.map roundLine
    if rounded > 0 then
      { st with
        dataLines := lines,
        operations := st.operations ++
          [({ type := "round_numbers", decimals := some 2,
              count := some rounded,
              reversible := false, impact := "medium" } : Operation)] }
    else { st with dataLines := lines }
  else st

/-- Delta-encoding stage of `applyModerateCSVCompression`. -/
def csvDeltaStage (customOptions : CSVOptions) (st : CSVStage) : CSVStage :=
  if optOn customOptions.deltaEncoding ∧ st.dataLines.length > 1 then
    let d := applyDeltaEncoding st.header st.dataLines
    if d.count > 0 then
      { header := d.header, dataLines := d.dataLines,
        operations := st.operations ++
          [({ type := "delta_encoding", columns := some d.count,
              reversible := true, impact := "medium",
              description := some ("Applied delta encoding to " ++
                natStr d.count ++ " numeric column(s)") } : Operation)] }
    else st
  else st

/-- Dictionary-encoding stage of `applyModerateCSVCompression`. -/
def csvDictStage (customOptions : CSVOptions) (st : CSVStage) : CSVStage :=
  if optOn customOptions.dictionaryEncoding ∧ st.dataLines.length > 1 then
    let d := applyDictionaryEncoding st.header st.dataLines
    if d.count > 0 then
      { header := d.header, dataLines := d.dataLines,
        operations := st.operations ++
          [({ type := "dictionary_encoding", columns := some d.count,
              uniqueValuesSaved := some d.compressionRatio,
              reversible := true, impact := "medium",
              description := some ("Applied dictionary encoding to " ++
                natStr d.count ++ " string column(s)") } : Operation)] }
    else st
  else st

/-- Low-variance-column removal stage of `applyModerateCSVCompression`. -/
def csvLowVarStage (customOptions : CSVOptions) (st : CSVStage) : CSVStage :=
  if optOn customOptions.removeLowVarianceColumns ∧ st.dataLines.length > 0 then
    let firstLine := jsSplit ',' (st.dataLines.headD "")
    let columnsToKeep := (List.range firstLine.length).filter
      (fun i => (lowVarColValues st.dataLines i).length > 1)
    if columnsToKeep.length < firstLine.length then
      { st with
        dataLines := st.dataLines.map (fun line =>
          joinSep ',' (columnsToKeep.map
            (fun i => ((jsSplit ',' line).get? i).getD ""))),
        operations := st.operations ++
          [({ type := "remove_low_variance_columns",
              count := some (firstLine.length - columnsToKeep.length),
              reversible := false, impact := "medium" } : Operation)] }
    else st
  else st

/-- Long-text truncation stage of `applyModerateCSVCompression`. -/
def csvTruncStage (customOptions : CSVOptions) (st : CSVStage) : CSVStage :=
  if optOn customOptions.truncateText then
    let maxLength := numOr customOptions.maxTextLength 50
    let truncField := fun (f : String) =>
      if (jsParseFloat f).isNone ∧ jsLength f > maxLength then
        (⟨f.data.take maxLength⟩ : String) ++ "..."
      else f
    let truncated := (st.dataLines.map (fun l =>
      ((jsSplit ',' l).filter (fun f =>
        (jsParseFloat f).isNone ∧ jsLength f > maxLength)).length)).sum
    let lines := st.dataLines.map (fun l =>
      joinSep ',' ((jsSplit ',' l).map truncField))
    if truncated > 0 then
      { st with
        dataLines := lines,
        operations := st.operations ++
          [({ type := "truncate_long_text", maxLength := some maxLength,
              count := some truncated,
              reversible := false, impact := "medium" } : Operation)] }
    else { st with dataLines := lines }
  else st

/-- `applyModerateCSVCompression`, as the composition of its option-gated
stages in source order. -/
def applyModerateCSVCompression (header : String) (dataLines : List String)
    (operations : List Operation) (customOptions : CSVOptions) : CSVStage :=
  csvTruncStage customOptions
    (csvLowVarStage customOptions
      (csvDictStage customOptions
        (csvDeltaStage customOptions
          (csvRoundStage customOptions
            (csvDedupStage customOptions
              (applyMinimalCSVCompression header dataLines operations
                customOptions))))))


/-- `detectNumericColumns`: a column is numeric when more than 80% of a
10-row sample parses as a number. -/
def detectNumericColumns (dataLines : List String) : List Nat :=
  match dataLines with
  | [] => []
  | first :: _ =>
    let firstLine := jsSplit ',' first
    let sampleSize := min 10 dataLines.length
    (List.range firstLine.length).filter (fun colIndex =>
      let numericCount := ((dataLines.take sampleSize).filter (fun l =>
        (jsParseFloat (((jsSplit ',' l).get? colIndex).getD "")).isSome)).length
      qDiv (numericCount : ℚ) (sampleSize : ℚ) > mkRat 4 5)

/-- One outlier-removal step of `applyAggressiveCSVCompression` for a single
detected numeric column.  `Math.abs(v - mean) <= 2*stdDev` is expressed by
the exact equivalent `(v - mean)^2 ≤ 4*variance`, avoiding a square root. -/
def removeOutliersCol (st : List String × List Operation) (colIndex : Nat) :
    List String × List Operation :=
  let dataLines := st.1
  let values := dataLines.filterMap (fun line =>
    jsParseFloat (((jsSplit ',' line).get? colIndex).getD ""))
  if values.length < 5 then st
  else
    let mean : ℚ := qDiv (qSum values) (values.length : ℚ)
    let variance : ℚ :=
      qDiv (qSum (values.map (fun v => qMul (qSub v mean) (qSub v mean))))
        (values.length : ℚ)
    let kept := dataLines.filter (fun line =>
      match jsParseFloat (((jsSplit ',' line).get? colIndex).getD "") with
      | none => true
      | some v => qMul (qSub v mean) (qSub v mean) ≤ qMul 4 variance)
    if kept.length < dataLines.length then
      (kept, st.2 ++
        [({ type := "remove_outliers", column := some colIndex,
            count := some (dataLines.length - kept.length),
            reversible := false, impact := "high" } : Operation)])
    else (kept, st.2)

/-- `applyAggressiveCSVCompression`.  The `removeNonEssentialColumns` branch
dereferences `dataLines[0]` without a guard; on an empty row list that JS
access throws, modelled as an `Except.error`. -/
def applyAggressiveCSVCompression (header : String) (dataLines : List String)
    (operations : List Operation) (customOptions : CSVOptions) :
    Except String CSVStage := do
  let st := applyModerateCSVCompression header dataLines operations customOptions
  let header := st.header
  let mut dataLines := st.dataLines
  let mut operations := st.operations
  -- Keep only first N columns
  if optTruthy customOptions.keepFirstNColumns ∧ dataLines.length > 0 then
    let maxColumns := numOr customOptions.maxColumns 5
    let firstLine := jsSplit ',' (dataLines.headD "")
    if firstLine.length > maxColumns then
      dataLines := dataLines.map (fun line =>
        joinSep ',' ((jsSplit ',' line).take maxColumns))
      operations := operations ++
        [({ type := "keep_first_n_columns", maxColumns := some maxColumns,
            removed := some ((firstLine.length : Int) - maxColumns),
            reversible := false, impact := "high" } : Operation)]
  -- Sample rows (keep every nth row)
  if optTruthy customOptions.sampleRows ∧ dataLines.length > 10 then
    let originalCount := dataLines.length
    let sampleRate := numOr customOptions.sampleRate 5
    dataLines := (dataLines.enum.filter
      (fun p => p.1 % sampleRate = 0)).map (fun p => p.2)
    if dataLines.length < originalCount then
      operations := operations ++
        [({ type := "sample_rows", sampleRate := some sampleRate,
            original := some originalCount, sampled := some dataLines.length,
            reversible := false, impact := "high" } : Operation)]
  -- Remove non-essential columns (if specified)
  if optTruthy customOptions.removeNonEssentialColumns ∧
      customOptions.essentialColumnIndices.isSome then
    let keepIndices := customOptions.essentialColumnIndices.getD []
    match dataLines with
    | [] => throw "TypeError: Cannot read properties of undefined (reading 'split')"
    | first :: _ =>
      let firstLine := jsSplit ',' first
      dataLines := dataLines.map (fun line =>
        joinSep ',' (keepIndices.map
          (fun i => ((jsSplit ',' line).get? i).getD "")))
      operations := operations ++
        [({ type := "remove_non_essential_columns",
            kept := some keepIndices.length,
            removed := some ((firstLine.length : Int) - keepIndices.length),
            reversible := false, impact := "high" } : Operation)]
  -- Remove statistical outliers
  if optTruthy customOptions.removeOutliers then
    let res := (detectNumericColumns dataLines).foldl removeOutliersCol
      (dataLines, operations)
    dataLines := res.1
    operations := res.2
  -- Statistical sampling
  if optTruthy customOptions.statisticalSampling ∧ dataLines.length > 100 then
    let originalCount := dataLines.length
    let sampleSize := max 50 (3 * originalCount / 10)
    let step := originalCount / sampleSize
    dataLines := (dataLines.enum.filter (fun p => p.1 % step = 0)).map
      (fun p => p.2)
    operations := operations ++
      [({ type := "statistical_sampling", original := some originalCount,
          sampled := some dataLines.length,
          reversible := false, impact := "high" } : Operation)]
  pure { header, dataLines, operations }

/-- `compressCSV` entry point. -/
def compressCSV (content : String) (lossLevel : String)
    (customOptions : CSVOptions) : Except String CompressionResult := do
  let lines := (jsSplit '\n' content).filter (fun l => jsTrim l ≠ "")
  if lines.isEmpty then throw "Empty CSV file"
  let header := lines.headD ""
  let dataLines := lines.tail
  let originalSize := jsLength content
  let result ←
    match lossLevel with
    | "minimal" =>
      pure (applyMinimalCSVCompression header dataLines [] customOptions)
    | "moderate" =>
      pure (applyModerateCSVCompression header dataLines [] customOptions)
    | "aggressive" =>
      applyAggressiveCSVCompression header dataLines [] customOptions
    | _ => throw "Invalid loss level"
  let compressed := joinSep '\n' (result.header :: result.dataLines)
  pure { compressed, operations := result.operations, originalSize,
         compressedSize := jsLength compressed }

/-! ## JSON engine (src/compression/json.js) -/

/-- JSON value tree; object members keep JS property (insertion) order. -/
inductive JValue where
  | null
  | bool (b : Bool)
  | num (q : ℚ)
  | str (s : String)
  | arr (items : List JValue)
  | obj (fields : List (String × JValue))
  deriving Repr

/-- `typeof v === 'object' && v !== null`. -/
def containerJ : JValue → Bool
  | .arr _ => true
  | .obj _ => true
  | _ => false

/-- `v === null`. -/
def isNullJ : JValue → Bool
  | .null => true
  | _ => false

/-- Empty array or empty object (the deletion test of `removeEmpty`). -/
def isEmptyContainerJ : JValue → Bool
  | .arr [] => true
  | .obj [] => true
  | _ => false

/-- First value bound to `key` (JS property read). -/
def objGet (fields : List (String × JValue)) (key : String) : Option JValue :=
  (fields.find? (fun p => p.1 = key)).map (fun p => p.2)

/-- JS property write: overwrite in place if present, else append. -/
def objSet (fields : List (String × JValue)) (key : String) (v : JValue) :
    List (String × JValue) :=
  match fields with
  | [] => [(key, v)]
  | (k, w) :: rest =>
    if k = key then (k, v) :: rest else (k, w) :: objSet rest key v

/-- JS `delete obj[key]`. -/
def objDel (fields : List (String × JValue)) (key : String) :
    List (String × JValue) :=
  match fields with
  | [] => []
  | (k, w) :: rest =>
    if k = key then rest else (k, w) :: objDel rest key

/-- Frequency-table update (`frequencies[key] = (frequencies[key] || 0) + 1`,
keys in first-encounter order). -/
def upsertCount (freqs : List (String × Nat)) (key : String) :
    List (String × Nat) :=
  match freqs with
  | [] => [(key, 1)]
  | (k, n) :: rest =>
    if k = key then (k, n + 1) :: rest else (k, n) :: upsertCount rest key

mutual

/-- `removeNulls`: delete null-valued object members, recursing through
containers; array elements are never deleted. -/
def removeNullsJ : JValue → JValue × Nat
  | .arr items =>
    let r := removeNullsArr items
    (.arr r.1, r.2)
  | .obj fields =>
    let r := removeNullsObj fields
    (.obj r.1, r.2)
  | v => (v, 0)

def removeNullsArr : List JValue → List JValue × Nat
  | [] => ([], 0)
  | item :: rest =>
    let (item', c1) :=
      if containerJ item then removeNullsJ item else (item, 0)
    let (rest', c2) := removeNullsArr rest
    (item' :: rest', c1 + c2)

def removeNullsObj : List (String × JValue) → List (String × JValue) × Nat
  | [] => ([], 0)
  | (k, v) :: rest =>
    if isNullJ v then
      let (rest', c) := removeNullsObj rest
      (rest', c + 1)
    else
      let (v', c1) := if containerJ v then removeNullsJ v else (v, 0)
      let (rest', c2) := removeNullsObj rest
      ((k, v') :: rest', c1 + c2)

end

mutual

/-- `removeEmpty`: recurse into a member's value first, then delete the
member if the (recursed) value is an empty array or empty object. -/
def removeEmptyJ : JValue → JValue × Nat
  | .arr items =>
    let r := removeEmptyArr items
    (.arr r.1, r.2)
  | .obj fields =>
    let r := removeEmptyObj fields
    (.obj r.1, r.2)
  | v => (v, 0)

def removeEmptyArr : List JValue → List JValue × Nat
  | [] => ([], 0)
  | item :: rest =>
    let (item', c1) :=
      if containerJ item then removeEmptyJ item else (item, 0)
    let (rest', c2) := removeEmptyArr rest
    (item' :: rest', c1 + c2)

def removeEmptyObj : List (String × JValue) → List (String × JValue) × Nat
  | [] => ([], 0)
  | (k, v) :: rest =>
    let (v', c1) := if containerJ v then removeEmptyJ v else (v, 0)
    let (rest', c2) := removeEmptyObj rest
    if isEmptyContainerJ v' then (rest', c1 + c2 + 1)
    else ((k, v') :: rest', c1 + c2)

end

mutual

/-- `trimStrings`: trim every string leaf, counting changed strings. -/
def trimStringsJ : JValue → JValue × Nat
  | .arr items =>
    let r := trimStringsArr items
    (.arr r.1, r.2)
  | .obj fields =>
    let r := trimStringsObj fields
    (.obj r.1, r.2)
  | v => (v, 0)

def trimStringsArr : List JValue → List JValue × Nat
  | [] => ([], 0)
  | item :: rest =>
    let (item', c1) :=
      match item with
      | .str s => if jsTrim s ≠ s then (JValue.str (jsTrim s), 1) else (item, 0)
      | _ => if containerJ item then trimStringsJ item else (item, 0)
    let (rest', c2) := trimStringsArr rest
    (item' :: rest', c1 + c2)

def trimStringsObj : List (String × JValue) → List (String × JValue) × Nat
  | [] => ([], 0)
  | (k, v) :: rest =>
    let (v', c1) :=
      match v with
      | .str s => if jsTrim s ≠ s then (JValue.str (jsTrim s), 1) else (v, 0)
      | _ => if containerJ v then trimStringsJ v else (v, 0)
    let (rest', c2) := trimStringsObj rest
    ((k, v') :: rest', c1 + c2)

end

/-- `roundNumbers`' per-number step: round to `d` decimals through the same
`parseFloat(x.toFixed(d))` composition the source uses. -/
def roundNumQ (d : Nat) (q : ℚ) : ℚ :=
  (jsParseFloat (jsToFixed d q)).getD 0

mutual

/-- `roundNumbers(obj, decimals)`: round every non-integer number. -/
def roundNumbersJ (d : Nat) : JValue → JValue × Nat
  | .arr items =>
    let r := roundNumbersArr d items
    (.arr r.1, r.2)
  | .obj fields =>
    let r := roundNumbersObj d fields
    (.obj r.1, r.2)
  | v => (v, 0)

def roundNumbersArr (d : Nat) : List JValue → List JValue × Nat
  | [] => ([], 0)
  | item :: rest =>
    let (item', c1) :=
      match item with
      | .num q => if q.den ≠ 1 then (JValue.num (roundNumQ d q), 1) else (item, 0)
      | _ => if containerJ item then roundNumbersJ d item else (item, 0)
    let (rest', c2) := roundNumbersArr d rest
    (item' :: rest', c1 + c2)

def roundNumbersObj (d : Nat) :
    List (String × JValue) → List (String × JValue) × Nat
  | [] => ([], 0)
  | (k, v) :: rest =>
    let (v', c1) :=
      match v with
      | .num q => if q.den ≠ 1 then (JValue.num (roundNumQ d q), 1) else (v, 0)
      | _ => if containerJ v then roundNumbersJ d v else (v, 0)
    let (rest', c2) := roundNumbersObj d rest
    ((k, v') :: rest', c1 + c2)

end

/-- Lowercase hex digit. -/
def hexDigit (n : Nat) : Char :=
  match n with
  | 0 => '0' | 1 => '1' | 2 => '2' | 3 => '3' | 4 => '4' | 5 => '5'
  | 6 => '6' | 7 => '7' | 8 => '8' | 9 => '9' | 10 => 'a' | 11 => 'b'
  | 12 => 'c' | 13 => 'd' | 14 => 'e' | _ => 'f'

/-- JSON string-character escaping as in `JSON.stringify`. -/
def jsonEscapeChar (c : Char) : String :=
  if c = '"' then "\\\""
  else if c = '\\' then "\\\\"
  else if c = '\n' then "\\n"
  else if c = '\r' then "\\r"
  else if c = '\t' then "\\t"
  else if c = '\x08' then "\\b"
  else if c = '\x0c' then "\\f"
  else if c.toNat < 32 then
    "\\u00" ++ ⟨[hexDigit (c.toNat / 16), hexDigit (c.toNat % 16)]⟩
  else String.singleton c

/-- `JSON.stringify` of a string. -/
def jsonQuote (s : String) : String :=
  "\"" ++ String.join (s.data.map jsonEscapeChar) ++ "\""

mutual

/-- `JSON.stringify` (no indentation). -/
def stringifyJ : JValue → String
  | .null => "null"
  | .bool true => "true"
  | .bool false => "false"
  | .num q => numToString q
  | .str s => jsonQuote s
  | .arr items => "[" ++ stringifyArr items ++ "]"
  | .obj fields => "\x7b" ++ stringifyObj fields ++ "\x7d"

def stringifyArr : List JValue → String
  | [] => ""
  | x :: xs =>
    stringifyJ x ++ (if xs.isEmpty then "" else ",") ++ stringifyArr xs

def stringifyObj : List (String × JValue) → String
  | [] => ""
  | (k, v) :: xs =>
    jsonQuote k ++ ":" ++ stringifyJ v ++
      (if xs.isEmpty then "" else ",") ++ stringifyObj xs

end

mutual

/-- `deduplicateArrays`: every array keeps only the first occurrence of each
distinct `JSON.stringify` image (removed elements counted), then the
surviving items are recursed into.  The source's dedup-then-`forEach`
sequence is fused into one first-occurrence pass; membership keys are the
serializations of the original items, exactly as in the Set the source
builds before recursing. -/
def deduplicateArraysJ : JValue → JValue × Nat
  | .arr items =>
    let r := dedupRecurseArr [] items
    (.arr r.1, r.2)
  | .obj fields =>
    let r := deduplicateArraysObj fields
    (.obj r.1, r.2)
  | v => (v, 0)

def dedupRecurseArr (seen : List String) : List JValue → List JValue × Nat
  | [] => ([], 0)
  | item :: rest =>
    let key := stringifyJ item
    if key ∈ seen then
      let (rest', c) := dedupRecurseArr seen rest
      (rest', c + 1)
    else
      let (item', c1) :=
        if containerJ item then deduplicateArraysJ item else (item, 0)
      let (rest', c2) := dedupRecurseArr (key :: seen) rest
      (item' :: rest', c1 + c2)

def deduplicateArraysObj :
    List (String × JValue) → List (String × JValue) × Nat
  | [] => ([], 0)
  | (k, v) :: rest =>
    let (v', c1) := if containerJ v then deduplicateArraysJ v else (v, 0)
    let (rest', c2) := deduplicateArraysObj rest
    ((k, v') :: rest', c1 + c2)

end

mutual

/-- `collectKeyFrequencies`: pre-order count of every object key over the
whole tree, keys in first-encounter order. -/
def collectFreqJ : JValue → List (String × Nat) → List (String × Nat)
  | .arr items, freqs => collectFreqArr items freqs
  | .obj fields, freqs => collectFreqObj fields freqs
  | _, freqs => freqs

def collectFreqArr : List JValue → List (String × Nat) → List (String × Nat)
  | [], freqs => freqs
  | item :: rest, freqs =>
    collectFreqArr rest
      (if containerJ item then collectFreqJ item freqs else freqs)

def collectFreqObj :
    List (String × JValue) → List (String × Nat) → List (String × Nat)
  | [], freqs => freqs
  | (k, v) :: rest, freqs =>
    let freqs := upsertCount freqs k
    collectFreqObj rest
      (if containerJ v then collectFreqJ v freqs else freqs)

end

/-- The base-62 alphabet of `generateShortKey`, in source order. -/
def base62Chars : List Char :=
  "0123456789abcdefghijklmnopqrstuvwxyzABCDEFGHIJKLMNOPQRSTUVWXYZ".data

/-- Fuel-bounded core of `shortKeyDigits` (structural recursion). -/
def shortKeyDigitsFuel : Nat → Nat → List Char
  | 0, _ => []
  | fuel + 1, remaining =>
    base62Chars.getD (remaining % 62) '0' ::
      (if remaining / 62 = 0 then []
       else shortKeyDigitsFuel fuel (remaining / 62))

/-- The do-while loop of `generateShortKey`: base-62 digits of `remaining`,
least significant first, always at least one digit. -/
def shortKeyDigits (remaining : Nat) : List Char :=
  shortKeyDigitsFuel (remaining + 1) remaining

/-- `generateShortKey`. -/
def generateShortKey (index : Nat) : String :=
  if index < 62 then ⟨[base62Chars.getD index '0']⟩
  else "|" ++ ⟨shortKeyDigits (index - 62)⟩

/-- Comparator of `shortenKeys`' candidate sort: frequency descending, then
original key length descending, ties stable. -/
def freqLenLe (a b : String × Nat) : Bool :=
  if a.2 ≠ b.2 then a.2 > b.2 else a.1.length ≥ b.1.length

/-- The key → short-code map built by the root pass of `shortenKeys`. -/
def buildKeyMap (data : JValue) : List (String × String) :=
  let sortedKeys := stableSortBy freqLenLe (collectFreqJ data [])
  sortedKeys.enum.map (fun p => (p.2.1, generateShortKey p.1))

/-- Short code assigned to `key` (JS `keyMap[key]`). -/
def keyMapGet (keyMap : List (String × String)) (key : String) :
    Option String :=
  (keyMap.find? (fun p => p.1 = key)).map (fun p => p.2)

mutual

/-- Replacement pass of `shortenKeys`: rename a member when its assigned
code is strictly shorter, preserving JS property-order semantics (renames
append at the end; other members keep their position). -/
def shortenKeysApplyJ (keyMap : List (String × String)) : JValue → JValue
  | .arr items => .arr (shortenKeysApplyArr keyMap items)
  | .obj fields => .obj (shortenKeysFold keyMap fields fields)
  | v => v

def shortenKeysApplyArr (keyMap : List (String × String)) :
    List JValue → List JValue
  | [] => []
  | item :: rest =>
    (if containerJ item then shortenKeysApplyJ keyMap item else item) ::
      shortenKeysApplyArr keyMap rest

/-- Fold over the `Object.keys` snapshot of one object, threading the
evolving member list.  Each member's value is recursed on its original
binding; a generated code never collides with another original key for the
inputs considered (renames append, collisions would overwrite in JS). -/
def shortenKeysFold (keyMap : List (String × String))
    (state : List (String × JValue)) :
    List (String × JValue) → List (String × JValue)
  | [] => state
  | (key, v0) :: rest =>
    let v' := if containerJ v0 then shortenKeysApplyJ keyMap v0 else v0
    let state' :=
      match keyMapGet keyMap key with
      | some shortKey =>
        if shortKey.length < key.length then
          objDel (objSet state shortKey v') key
        else if containerJ v0 then objSet state key v' else state
      | none => if containerJ v0 then objSet state key v' else state
    shortenKeysFold keyMap state' rest

end

/-- `shortenKeys` root call: build the global key map, apply it, and return
the map (which the caller inspects) with the transformed value. -/
def shortenKeys (data : JValue) : List (String × String) × JValue :=
  let keyMap := buildKeyMap data
  (keyMap, shortenKeysApplyJ keyMap data)

mutual

/-- `truncateStrings(obj, maxLength)`. -/
def truncateStringsJ (maxLength : Nat) : JValue → JValue × Nat
  | .arr items =>
    let r := truncateStringsArr maxLength items
    (.arr r.1, r.2)
  | .obj fields =>
    let r := truncateStringsObj maxLength fields
    (.obj r.1, r.2)
  | v => (v, 0)

def truncateStringsArr (maxLength : Nat) : List JValue → List JValue × Nat
  | [] => ([], 0)
  | item :: rest =>
    let (item', c1) :=
      match item with
      | .str s =>
        if jsLength s > maxLength then
          (JValue.str ((⟨s.data.take maxLength⟩ : String) ++ "..."), 1)
        else (item, 0)
      | _ => if containerJ item then truncateStringsJ maxLength item else (item, 0)
    let (rest', c2) := truncateStringsArr maxLength rest
    (item' :: rest', c1 + c2)

def truncateStringsObj (maxLength : Nat) :
    List (String × JValue) → List (String × JValue) × Nat
  | [] => ([], 0)
  | (k, v) :: rest =>
    let (v', c1) :=
      match v with
      | .str s =>
        if jsLength s > maxLength then
          (JValue.str ((⟨s.data.take maxLength⟩ : String) ++ "..."), 1)
        else (v, 0)
      | _ => if containerJ v then truncateStringsJ maxLength v else (v, 0)
    let (rest', c2) := truncateStringsObj maxLength rest
    ((k, v') :: rest', c1 + c2)

end

mutual

/-- `flattenNesting(obj, maxDepth, currentDepth)`. -/
def flattenNestingJ (maxDepth currentDepth : Nat) : JValue → JValue × Nat
  | .arr items =>
    if currentDepth ≥ maxDepth then (.arr items, 0)
    else
      let r := flattenNestingArr maxDepth currentDepth items
      (.arr r.1, r.2)
  | .obj fields =>
    if currentDepth ≥ maxDepth then (.obj fields, 0)
    else
      let r := flattenNestingObj maxDepth currentDepth fields
      (.obj r.1, r.2)
  | v => (v, 0)

def flattenNestingArr (maxDepth currentDepth : Nat) :
    List JValue → List JValue × Nat
  | [] => ([], 0)
  | item :: rest =>
    let (item', c1) :=
      if containerJ item then
        flattenNestingJ maxDepth (currentDepth + 1) item
      else (item, 0)
    let (rest', c2) := flattenNestingArr maxDepth currentDepth rest
    (item' :: rest', c1 + c2)

def flattenNestingObj (maxDepth currentDepth : Nat) :
    List (String × JValue) → List (String × JValue) × Nat
  | [] => ([], 0)
  | (k, v) :: rest =>
    let (v', c1) :=
      if containerJ v then
        if currentDepth ≥ maxDepth - 1 then (JValue.str "[Flattened]", 1)
        else flattenNestingJ maxDepth (currentDepth + 1) v
      else (v, 0)
    let (rest', c2) := flattenNestingObj maxDepth currentDepth rest
    ((k, v') :: rest', c1 + c2)

end

structure JSONOptions where
  removeNulls : Option Bool := none
  shortenKeys : Option Bool := none
  truncateStrings : Option Bool := none
  flattenNesting : Option Bool := none
  deriving Repr

/-- `applyMinimalCompression` (JSON). -/
def applyMinimalCompression (data : JValue) (operations : List Operation)
    (customOptions : JSONOptions) : JValue × List Operation :=
  let (data, operations) :=
    if optOn customOptions.removeNulls then
      let (d, nullCount) := removeNullsJ data
      if nullCount > 0 then
        (d, operations ++
          [({ type := "remove_nulls", count := some nullCount,
              reversible := true, impact := "low" } : Operation)])
      else (d, operations)
    else (data, operations)
  let (data, operations) :=
    let (d, emptyCount) := removeEmptyJ data
    if emptyCount > 0 then
      (d, operations ++
        [({ type := "remove_empty", count := some emptyCount,
            reversible := true, impact := "low" } : Operation)])
    else (d, operations)
  let (data, operations) :=
    let (d, trimCount) := trimStringsJ data
    if trimCount > 0 then
      (d, operations ++
        [({ type := "trim_strings", count := some trimCount,
            reversible := false, impact := "low" } : Operation)])
    else (d, operations)
  (data, operations)

/-- `applyModerateCompression` (JSON). -/
def applyModerateCompression (data : JValue) (operations : List Operation)
    (customOptions : JSONOptions) : JValue × List Operation :=
  let (data, operations) :=
    applyMinimalCompression data operations customOptions
  let (data, operations) :=
    if optOn customOptions.shortenKeys then
      let (keyMap, d) := shortenKeys data
      if keyMap.length > 0 then
        (d, operations ++
          [({ type := "shorten_keys", count := some keyMap.length,
              reversible := true, impact := "medium" } : Operation)])
      else (d, operations)
    else (data, operations)
  let (data, operations) :=
    let (d, roundedCount) := roundNumbersJ 2 data
    if roundedCount > 0 then
      (d, operations ++
        [({ type := "round_numbers", decimals := some 2,
            count := some roundedCount,
            reversible := false, impact := "medium" } : Operation)])
    else (d, operations)
  let (data, operations) :=
    let (d, dedupeCount) := deduplicateArraysJ data
    if dedupeCount > 0 then
      (d, operations ++
        [({ type := "deduplicate_arrays", count := some dedupeCount,
            reversible := false, impact := "medium" } : Operation)])
    else (d, operations)
  (data, operations)

/-- `applyAggressiveCompression` (JSON). -/
def applyAggressiveCompression (data : JValue) (operations : List Operation)
    (customOptions : JSONOptions) : JValue × List Operation :=
  let (data, operations) :=
    applyModerateCompression data operations customOptions
  let (data, operations) :=
    if optOn customOptions.truncateStrings then
      let (d, truncated) := truncateStringsJ 100 data
      if truncated > 0 then
        (d, operations ++
          [({ type := "truncate_strings", maxLength := some 100,
              count := some truncated,
              reversible := false, impact := "high" } : Operation)])
      else (d, operations)
    else (data, operations)
  let (data, operations) :=
    if optTruthy customOptions.flattenNesting then
      let (d, flattened) := flattenNestingJ 3 0 data
      if flattened > 0 then
        (d, operations ++
          [({ type := "flatten_nesting", maxDepth := some 3,
              count := some flattened,
              reversible := false, impact := "high" } : Operation)])
      else (d, operations)
    else (data, operations)
  let (data, operations) :=
    let (d, roundedToInt) := roundNumbersJ 0 data
    if roundedToInt > 0 then
      (d, operations ++
        [({ type := "round_to_integers", count := some roundedToInt,
            reversible := false, impact := "high" } : Operation)])
    else (d, operations)
  (data, operations)

/-- `compressJSON` on an already-parsed value (the source accepts either a
string, which it first `JSON.parse`s, or a value, which it serializes for
`originalSize`; the value branch is modelled). -/
def compressJSONValue (content : JValue) (lossLevel : String)
    (customOptions : JSONOptions) : Except String CompressionResult := do
  let originalContent := stringifyJ content
  let (data, operations) ←
    match lossLevel with
    | "minimal" => pure (applyMinimalCompression content [] customOptions)
    | "moderate" => pure (applyModerateCompression content [] customOptions)
    | "aggressive" => pure (applyAggressiveCompression content [] customOptions)
    | _ => throw "Invalid loss level"
  let result := stringifyJ data
  pure { compressed := result, operations,
         originalSize := jsLength originalContent,
         compressedSize := jsLength result }

/-! ## SQL engine (src/compression/sql.js)

The engine's regexes are compiled by hand into deterministic scanners; each
scanner consumes the same text as the corresponding regex match (none of the
patterns needs backtracking beyond the fixed resolution noted at its
definition). -/

/-- `\w` character class. -/
def isWordChar (c : Char) : Bool := c.isAlphanum || c = '_'

/-- Case-insensitive literal match: remaining input on success. -/
def matchCI : List Char → List Char → Option (List Char)
  | [], s => some s
  | _ :: _, [] => none
  | p :: ps, c :: cs => if c.toLower = p.toLower then matchCI ps cs else none

/-- Case-sensitive literal match. -/
def matchCS : List Char → List Char → Option (List Char)
  | [], s => some s
  | _ :: _, [] => none
  | p :: ps, c :: cs => if c = p then matchCS ps cs else none

/-- Scanner state: remaining input and characters consumed so far. -/
abbrev Scan := List Char × Nat

/-- Consume a case-insensitive literal. -/
def scanLitCI (pat : List Char) (s : Scan) : Option Scan :=
  (matchCI pat s.1).map (fun r => (r, s.2 + pat.length))

/-- Consume a case-sensitive literal. -/
def scanLitCS (pat : List Char) (s : Scan) : Option Scan :=
  (matchCS pat s.1).map (fun r => (r, s.2 + pat.length))

/-- Consume `\s+`. -/
def scanWS1 (s : Scan) : Option Scan :=
  let run := s.1.takeWhile jsIsWS
  if run.isEmpty then none
  else some (s.1.drop run.length, s.2 + run.length)

/-- Consume `\s*`. -/
def scanWS0 (s : Scan) : Scan :=
  let run := s.1.takeWhile jsIsWS
  (s.1.drop run.length, s.2 + run.length)

/-- Consume a greedy character-class run, returning the taken characters. -/
def scanTake (p : Char → Bool) (s : Scan) : List Char × Scan :=
  let run := s.1.takeWhile p
  (run, (s.1.drop run.length, s.2 + run.length))

/-- Consume one specific character. -/
def scanChar (c : Char) (s : Scan) : Option Scan :=
  match s.1 with
  | x :: r => if x = c then some (r, s.2 + 1) else none
  | [] => none

mutual

/-- Line comments: `--.*$` per line (text from the first `--` to the line
terminator is dropped). -/
def stripLineComments : List Char → List Char
  | [] => []
  | '-' :: '-' :: rest => stripLineSkip rest
  | c :: cs => c :: stripLineComments cs

def stripLineSkip : List Char → List Char
  | [] => []
  | c :: cs =>
    if c = '\n' ∨ c = '\r' then c :: stripLineComments cs
    else stripLineSkip cs

end

/-- Position of the closing `*/`, as the rest after it. -/
def findBlockClose : List Char → Option (List Char)
  | [] => none
  | [_] => none
  | a :: b :: rest =>
    if a = '*' ∧ b = '/' then some rest else findBlockClose (b :: rest)

theorem findBlockClose_lt :
    ∀ cs r, findBlockClose cs = some r → r.length < cs.length := by
  intro cs
  induction cs with
  | nil => intro r h; simp [findBlockClose] at h
  | cons c cs ih =>
    intro r h
    cases cs with
    | nil => simp [findBlockClose] at h
    | cons b rest =>
      rw [findBlockClose] at h
      split at h
      · cases h; simp; omega
      · have := ih r h; simp at this ⊢; omega

/-- Fuel-bounded core of `stripBlockComments`; the entry point supplies
fuel above the input length, which no run can exhaust since every step
consumes at least one character. -/
def stripBlockCommentsFuel : Nat → List Char → List Char
  | 0, l => l
  | fuel + 1, l =>
    match l with
    | [] => []
    | '/' :: '*' :: rest =>
      (match findBlockClose rest with
       | some restAfter => stripBlockCommentsFuel fuel restAfter
       | none => '/' :: '*' :: rest)
    | c :: cs => c :: stripBlockCommentsFuel fuel cs

/-- Block comments: `\/\*[\s\S]*?\*\//g` (non-greedy, so each `/*` is
closed by the nearest `*/`; an unclosed `/*` never matches). -/
def stripBlockComments (l : List Char) : List Char :=
  stripBlockCommentsFuel (l.length + 1) l

/-- `\s+` → `' '`. -/
def collapseWSAux (prevWS : Bool) : List Char → List Char
  | [] => []
  | c :: cs =>
    if jsIsWS c then
      if prevWS then collapseWSAux true cs else ' ' :: collapseWSAux true cs
    else c :: collapseWSAux false cs

def collapseWS (s : List Char) : List Char := collapseWSAux false s

/-- The `(),;` delimiter class. -/
def isDelimSQL (c : Char) : Bool := c = '(' ∨ c = ')' ∨ c = ',' ∨ c = ';'

/-- `\s*([(),;])\s*` → `$1`: whitespace pending before a delimiter is
dropped, whitespace directly after an emitted delimiter is dropped, other
whitespace is kept verbatim. -/
def delimSpacesAux (pending : List Char) (afterDelim : Bool) :
    List Char → List Char
  | [] => if afterDelim then [] else pending
  | c :: cs =>
    if jsIsWS c then
      if afterDelim then delimSpacesAux [] true cs
      else delimSpacesAux (pending ++ [c]) false cs
    else if isDelimSQL c then c :: delimSpacesAux [] true cs
    else if afterDelim then c :: delimSpacesAux [] false cs
    else pending ++ c :: delimSpacesAux [] false cs

def delimSpaces (s : List Char) : List Char := delimSpacesAux [] false s

/-- Fuel-bounded core of `replaceWordAux` (each step consumes at least one
character, so the entry point's fuel is never exhausted). -/
def replaceWordFuel (ci : Bool) (word repl : List Char) :
    Nat → Bool → List Char → List Char
  | 0, _, l => l
  | fuel + 1, prevIsWord, l =>
    match l with
    | [] => []
    | c :: cs =>
      let hit : Option Unit :=
        if prevIsWord then none
        else
          match (if ci then matchCI word (c :: cs) else matchCS word (c :: cs)) with
          | some rest => if isWordChar (rest.headD ' ') then none else some ()
          | none => none
      match hit with
      | some _ =>
        repl ++ replaceWordFuel ci word repl fuel true
          ((c :: cs).drop (max 1 word.length))
      | none => c :: replaceWordFuel ci word repl fuel (isWordChar c) cs

/-- Generic `\bword\b` global replace (`ci` selects case-insensitive),
threading the "previous character was a word character" boundary state. -/
def replaceWordAux (ci : Bool) (word repl : List Char) (prevIsWord : Bool)
    (l : List Char) : List Char :=
  replaceWordFuel ci word repl (l.length + 1) prevIsWord l

/-- The moderate tier's fixed keyword list, in source order. -/
def sqlKeywords : List String :=
  ["SELECT", "FROM", "WHERE", "INSERT", "UPDATE", "DELETE", "CREATE", "DROP",
   "TABLE", "DATABASE", "INDEX", "VIEW", "JOIN", "INNER", "LEFT", "RIGHT",
   "ON", "AND", "OR", "NOT", "NULL", "AS", "ORDER", "BY", "GROUP", "HAVING",
   "LIMIT", "OFFSET", "DISTINCT", "COUNT", "SUM", "AVG", "MAX", "MIN"]

/-- `\bKEYWORD\b/gi → keyword.toLowerCase()`, applied per keyword in order. -/
def lowercaseKeywords (s : List Char) : List Char :=
  sqlKeywords.foldl
    (fun acc kw => replaceWordAux true kw.data (kw.data.map Char.toLower) false acc) s

/-- Fuel-bounded core of `removeExplainPass`. -/
def removeExplainFuel : Nat → Bool → List Char → List Char
  | 0, _, l => l
  | fuel + 1, prevIsWord, l =>
    match l with
    | [] => []
    | c :: cs =>
      let hit : Option Nat :=
        if prevIsWord then none
        else
          match matchCI "explain".data (c :: cs) with
          | some rest =>
            let ws := rest.takeWhile jsIsWS
            if ws.isEmpty then none else some (7 + ws.length)
          | none => none
      match hit with
      | some n => removeExplainFuel fuel false ((c :: cs).drop (max 1 n))
      | none => c :: removeExplainFuel fuel (isWordChar c) cs

/-- `\bEXPLAIN\s+/gi → ''`. -/
def removeExplainPass (prevIsWord : Bool) (l : List Char) : List Char :=
  removeExplainFuel (l.length + 1) prevIsWord l

/-- `[a-zA-Z_]`. -/
def isIdentStart (c : Char) : Bool := c.isAlpha || c = '_'

/-- One attempt of `/\s+AS\s+([a-zA-Z_][a-zA-Z0-9_]*)/gi`: captured alias and
consumed length. -/
def tryAlias (l : List Char) : Option (List Char × Nat) := do
  let s1 ← scanWS1 (l, 0)
  let s2 ← scanLitCI "as".data s1
  let s3 ← scanWS1 s2
  match s3.1 with
  | c :: rest =>
    if isIdentStart c then
      let (tail, s4) := scanTake isWordChar (rest, s3.2 + 1)
      some (c :: tail, s4.2)
    else none
  | [] => none

/-- Fuel-bounded core of `findAliases`. -/
def findAliasesFuel : Nat → List Char → List String
  | 0, _ => []
  | fuel + 1, l =>
    match l with
    | [] => []
    | c :: cs =>
      match tryAlias (c :: cs) with
      | some (ident, n) =>
        (⟨ident⟩ : String) :: findAliasesFuel fuel ((c :: cs).drop (max 1 n))
      | none => findAliasesFuel fuel cs

/-- All aliases found by the `exec` loop, in match order. -/
def findAliases (l : List Char) : List String :=
  findAliasesFuel (l.length + 1) l

/-- The base-26 alphabet of `getShortAlias`. -/
def aliasChars : List Char := "abcdefghijklmnopqrstuvwxyz".data

/-- Fuel-bounded core of `shortAliasDigitsLE` (structural recursion). -/
def shortAliasDigitsLEFuel : Nat → Nat → List Char
  | 0, _ => []
  | fuel + 1, num =>
    aliasChars.getD (num % 26) 'a' ::
      (if num / 26 = 0 then [] else shortAliasDigitsLEFuel fuel (num / 26))

/-- The do-while loop of `getShortAlias` generates base-26 digits least
significant first, prepending each — i.e. the reverse of this list. -/
def shortAliasDigitsLE (num : Nat) : List Char :=
  shortAliasDigitsLEFuel (num + 1) num

/-- `getShortAlias`. -/
def getShortAlias (index : Nat) : String :=
  ⟨(shortAliasDigitsLE index).reverse⟩

/-- The alias map built first-seen-wins over aliases longer than 2. -/
def buildAliasMap (aliases : List String) : List (String × String) :=
  (aliases.foldl
    (fun st a =>
      if st.1.any (fun p => p.1 = a) ∨ jsLength a ≤ 2 then st
      else (st.1 ++ [(a, getShortAlias st.2)], st.2 + 1))
    (([] : List (String × String)), 0)).1

/-- Apply the alias map: `\blongAlias\b/g` (case-sensitive), in map order. -/
def applyAliasMap (aliasMap : List (String × String)) (s : List Char) :
    List Char :=
  aliasMap.foldl
    (fun acc p => replaceWordAux false p.1.data p.2.data false acc) s

/-- One attempt of `/\b(left|right|full)\s+outer\s+join\b/gi`: the captured
original-case first word and the consumed length. -/
def tryOuterJoin (l : List Char) : Option (List Char × Nat) :=
  let tryKw : String → Option (List Char × Scan) := fun kw =>
    (matchCI kw.data l).map (fun r => (l.take kw.data.length, (r, kw.data.length)))
  match tryKw "left" <|> tryKw "right" <|> tryKw "full" with
  | none => none
  | some (cap, s1) =>
    (do
      let s2 ← scanWS1 s1
      let s3 ← scanLitCI "outer".data s2
      let s4 ← scanWS1 s3
      let s5 ← scanLitCI "join".data s4
      if isWordChar (s5.1.headD ' ') then none
      else some (cap, s5.2))

/-- Fuel-bounded core of `outerJoinPass`. -/
def outerJoinFuel : Nat → Bool → List Char → List Char
  | 0, _, l => l
  | fuel + 1, prevIsWord, l =>
    match l with
    | [] => []
    | c :: cs =>
      match (if prevIsWord then none else tryOuterJoin (c :: cs)) with
      | some (cap, n) =>
        cap ++ " join".data ++ outerJoinFuel fuel true ((c :: cs).drop (max 1 n))
      | none => c :: outerJoinFuel fuel (isWordChar c) cs

/-- `\b(left|right|full)\s+outer\s+join\b/gi → '$1 join'`. -/
def outerJoinPass (prevIsWord : Bool) (l : List Char) : List Char :=
  outerJoinFuel (l.length + 1) prevIsWord l

/-- Fuel-bounded core of `publicDotPass`. -/
def publicDotFuel : Nat → Bool → List Char → List Char
  | 0, _, l => l
  | fuel + 1, prevIsWord, l =>
    match l with
    | [] => []
    | c :: cs =>
      match (if prevIsWord then none else matchCI "public.".data (c :: cs)) with
      | some _ => publicDotFuel fuel false ((c :: cs).drop 7)
      | none => c :: publicDotFuel fuel (isWordChar c) cs

/-- `\bpublic\./gi → ''`. -/
def publicDotPass (prevIsWord : Bool) (l : List Char) : List Char :=
  publicDotFuel (l.length + 1) prevIsWord l

/-- One attempt of `/\s+cascade\b/gi`. -/
def tryCascade (l : List Char) : Option Nat := do
  let s1 ← scanWS1 (l, 0)
  let s2 ← scanLitCI "cascade".data s1
  if isWordChar (s2.1.headD ' ') then none else some s2.2

/-- Fuel-bounded core of `cascadePass`. -/
def cascadeFuel : Nat → List Char → List Char
  | 0, l => l
  | fuel + 1, l =>
    match l with
    | [] => []
    | c :: cs =>
      match tryCascade (c :: cs) with
      | some n => cascadeFuel fuel ((c :: cs).drop (max 1 n))
      | none => c :: cascadeFuel fuel cs

/-- `\s+cascade\b/gi → ''`. -/
def cascadePass (l : List Char) : List Char := cascadeFuel (l.length + 1) l

/-- `insert into\s+(\w+)` — head of the INSERT-combining pattern. -/
def tryCombineHead (l : List Char) : Option (List Char × Scan) := do
  let s1 ← scanLitCI "insert into".data (l, 0)
  let s2 ← scanWS1 s1
  let (tbl, s3) := scanTake isWordChar s2
  if tbl.isEmpty then none else some (tbl, s3)

/-- `\s*\([^)]*\)` — the column list of the INSERT-combining pattern. -/
def tryCombineCols (s : Scan) : Option Scan := do
  let s1 ← scanChar '(' (scanWS0 s)
  let (_, s2) := scanTake (fun c => c ≠ ')') s1
  scanChar ')' s2

/-- `\s*values\s*\(` — up to the opening parenthesis of a VALUES tuple. -/
def tryCombineValuesOpen (s : Scan) : Option Scan := do
  let s1 ← scanLitCI "values".data (scanWS0 s)
  scanChar '(' (scanWS0 s1)

/-- `\);insert into\s+\1\s*\([^)]*\)\s*values\s*\(` — tail of the
INSERT-combining pattern (`\1` matches case-insensitively under `i`). -/
def tryCombineTail (tbl : List Char) (s : Scan) : Option Scan := do
  let s1 ← scanChar ')' s
  let s2 ← scanChar ';' s1
  let s3 ← scanLitCI "insert into".data s2
  let s4 ← scanWS1 s3
  let s5 ← scanLitCI tbl s4
  let s6 ← tryCombineCols s5
  tryCombineValuesOpen s6

/-- One attempt of the INSERT-combining pattern
`/insert into\s+(\w+)\s*\([^)]*\)\s*values\s*\(([^)]+)\);insert into\s+\1\s*\([^)]*\)\s*values\s*\(/gi`. -/
def tryCombine (l : List Char) : Option (List Char × List Char × Nat) := do
  let (tbl, s3) ← tryCombineHead l
  let s6 ← tryCombineCols s3
  let s8 ← tryCombineValuesOpen s6
  let (fv, s9) := scanTake (fun c => c ≠ ')') s8
  if fv.isEmpty then none
  else do
    let s19 ← tryCombineTail tbl s9
    some (tbl, fv, s19.2)

/-- Fuel-bounded core of `combinePass`. -/
def combinePassFuel : Nat → List Char → List Char × Nat
  | 0, l => (l, 0)
  | fuel + 1, l =>
    match l with
    | [] => ([], 0)
    | c :: cs =>
      match tryCombine (c :: cs) with
      | some (tbl, fv, n) =>
        let r := combinePassFuel fuel ((c :: cs).drop (max 1 n))
        ("insert into ".data ++ tbl ++ " values(".data ++ fv ++
          [')', ',', '('] ++ r.1, r.2 + 1)
      | none =>
        let r := combinePassFuel fuel cs
        (c :: r.1, r.2)

/-- One global-replace sweep of the INSERT-combining regex, counting
replacements (`combined++` in the callback). -/
def combinePass (l : List Char) : List Char × Nat :=
  combinePassFuel (l.length + 1) l

/-- The `do … while (length shrank)` loop around `combinePass`; the fuel is
instantiated above the maximum possible number of shrinking iterations. -/
def combineLoop : Nat → List Char → Nat → List Char × Nat
  | 0, s, acc => (s, acc)
  | fuel + 1, s, acc =>
    let (t, n) := combinePass s
    if t.length < s.length then combineLoop fuel t (acc + n) else (t, acc + n)

/-- First case-insensitive literal alternative that matches (regex
alternation order; the alternatives used here share no prefixes, so no
backtracking arises). -/
def firstMatchCI (pats : List String) (s : Scan) : Option Scan :=
  match pats with
  | [] => none
  | p :: ps => scanLitCI p.data s <|> firstMatchCI ps s

/-- One attempt of `/\b<kw>\s+(<alt>|…)\s+[^;]+;?/gi` (the CREATE/DROP/ALTER
statement-removal patterns). -/
def tryStmtRemoval (kw : String) (seconds : List String) (l : List Char) :
    Option Nat := do
  let s1 ← scanLitCI kw.data (l, 0)
  let s2 ← scanWS1 s1
  let s3 ← firstMatchCI seconds s2
  let s4 ← scanWS1 s3
  let (body, s5) := scanTake (fun c => c ≠ ';') s4
  if body.isEmpty then none
  else
    match scanChar ';' s5 with
    | some s6 => some s6.2
    | none => some s5.2

/-- Fuel-bounded core of `stmtRemovalPass`. -/
def stmtRemovalFuel (kw : String) (seconds : List String) :
    Nat → Bool → List Char → List Char
  | 0, _, l => l
  | fuel + 1, prevIsWord, l =>
    match l with
    | [] => []
    | c :: cs =>
      match (if prevIsWord then none else tryStmtRemoval kw seconds (c :: cs)) with
      | some n => stmtRemovalFuel kw seconds fuel false ((c :: cs).drop (max 1 n))
      | none => c :: stmtRemovalFuel kw seconds fuel (isWordChar c) cs

/-- Global sweep of one statement-removal regex (replacement `''`). -/
def stmtRemovalPass (kw : String) (seconds : List String)
    (prevIsWord : Bool) (l : List Char) : List Char :=
  stmtRemovalFuel kw seconds (l.length + 1) prevIsWord l

/-- One attempt of `/\b(begin|start\s+transaction|commit|rollback)\s*;?/gi`:
consumed length and whether the last consumed character is a word character
(the boundary state for the continuation). -/
def tryTransaction (l : List Char) : Option (Nat × Bool) := do
  let s1 ←
    scanLitCI "begin".data (l, 0) <|>
    (do
      let a ← scanLitCI "start".data (l, 0)
      let b ← scanWS1 a
      scanLitCI "transaction".data b) <|>
    scanLitCI "commit".data (l, 0) <|>
    scanLitCI "rollback".data (l, 0)
  let s2 := scanWS0 s1
  match scanChar ';' s2 with
  | some s3 => some (s3.2, false)
  | none => some (s2.2, s2.2 = s1.2)

/-- Fuel-bounded core of `transactionPass`. -/
def transactionFuel : Nat → Bool → List Char → List Char
  | 0, _, l => l
  | fuel + 1, prevIsWord, l =>
    match l with
    | [] => []
    | c :: cs =>
      match (if prevIsWord then none else tryTransaction (c :: cs)) with
      | some (n, lastWord) =>
        transactionFuel fuel lastWord ((c :: cs).drop (max 1 n))
      | none => c :: transactionFuel fuel (isWordChar c) cs

/-- Global sweep of the transaction-removal regex. -/
def transactionPass (prevIsWord : Bool) (l : List Char) : List Char :=
  transactionFuel (l.length + 1) prevIsWord l

/-- One attempt of
`/,?\s*(primary key|foreign key|unique|check)\s*\([^)]*\)/gi`. -/
def tryConstraintParen (l : List Char) : Option Nat := do
  let s1 :=
    match scanChar ',' (l, 0) with
    | some s => s
    | none => (l, 0)
  let s2 ← firstMatchCI ["primary key", "foreign key", "unique", "check"]
    (scanWS0 s1)
  let s3 ← scanChar '(' (scanWS0 s2)
  let (_, s4) := scanTake (fun c => c ≠ ')') s3
  let s5 ← scanChar ')' s4
  some s5.2

/-- Fuel-bounded core of `constraintParenPass`. -/
def constraintParenFuel : Nat → List Char → List Char
  | 0, l => l
  | fuel + 1, l =>
    match l with
    | [] => []
    | c :: cs =>
      match tryConstraintParen (c :: cs) with
      | some n => constraintParenFuel fuel ((c :: cs).drop (max 1 n))
      | none => c :: constraintParenFuel fuel cs

/-- Global sweep of the parenthesised-constraint regex. -/
def constraintParenPass (l : List Char) : List Char :=
  constraintParenFuel (l.length + 1) l

/-- One attempt of
`/\s+(primary key|foreign key|unique|check|not null|default\s+[^,)]+)/gi`. -/
def tryConstraintWord (l : List Char) : Option Nat := do
  let s1 ← scanWS1 (l, 0)
  match firstMatchCI ["primary key", "foreign key", "unique", "check",
      "not null"] s1 with
  | some s2 => some s2.2
  | none => do
    let s2 ← scanLitCI "default".data s1
    let s3 ← scanWS1 s2
    let (body, s4) := scanTake (fun c => c ≠ ',' && c ≠ ')') s3
    if body.isEmpty then none else some s4.2

/-- Fuel-bounded core of `constraintWordPass`. -/
def constraintWordFuel : Nat → List Char → List Char
  | 0, l => l
  | fuel + 1, l =>
    match l with
    | [] => []
    | c :: cs =>
      match tryConstraintWord (c :: cs) with
      | some n => constraintWordFuel fuel ((c :: cs).drop (max 1 n))
      | none => c :: constraintWordFuel fuel cs

/-- Global sweep of the bare-constraint regex. -/
def constraintWordPass (l : List Char) : List Char :=
  constraintWordFuel (l.length + 1) l

/-- One attempt of `/insert into\s+(\w+)[^)]*\)\s*values\s*(\([^;]+\));/gi`:
table, the full second capture (outer parentheses included) and consumed
length.  The only backtracking point, `\([^;]+\);`, resolves uniquely: the
closing `)` must sit immediately before the first `;`. -/
def trySampleInsert (l : List Char) : Option (List Char × List Char × Nat) := do
  let s1 ← scanLitCI "insert into".data (l, 0)
  let s2 ← scanWS1 s1
  let (tbl, s3) := scanTake isWordChar s2
  if tbl.isEmpty then none
  else do
    let (_, s4) := scanTake (fun c => c ≠ ')') s3
    let s5 ← scanChar ')' s4
    let s6 ← scanLitCI "values".data (scanWS0 s5)
    let s7 ← scanChar '(' (scanWS0 s6)
    let (body, s8) := scanTake (fun c => c ≠ ';') s7
    match body.reverse with
    | ')' :: innerRev =>
      if innerRev.isEmpty then none
      else do
        let s9 ← scanChar ';' s8
        some (tbl, '(' :: body, s9.2)
    | _ => none

/-- Fuel-bounded core of `splitValueGroups`. -/
def splitValueGroupsFuel : Nat → List Char → List (List Char)
  | 0, _ => [[]]
  | fuel + 1, l =>
    match l with
    | [] => [[]]
    | c :: cs =>
      let sep : Option Nat := do
        let s1 ← scanChar ')' ((c :: cs), 0)
        let s2 ← scanChar ',' s1
        let s3 ← scanChar '(' (scanWS0 s2)
        some s3.2
      match sep with
      | some n => [] :: splitValueGroupsFuel fuel ((c :: cs).drop (max 1 n))
      | none =>
        match splitValueGroupsFuel fuel cs with
        | [] => [[c]]
        | piece :: more => (c :: piece) :: more

/-- The callback's `values.split(/\),\s*\(/)`. -/
def splitValueGroups (l : List Char) : List (List Char) :=
  splitValueGroupsFuel (l.length + 1) l

/-- The callback's `sampled.join('),(')`. -/
def joinValueGroups : List (List Char) → List Char
  | [] => []
  | [x] => x
  | x :: y :: xs => x ++ [')', ',', '('] ++ joinValueGroups (y :: xs)

/-- Fuel-bounded core of `sampleInsertPass`. -/
def sampleInsertFuel (rate : Nat) : Nat → List Char → List Char
  | 0, l => l
  | fuel + 1, l =>
    match l with
    | [] => []
    | c :: cs =>
      match trySampleInsert (c :: cs) with
      | some (tbl, cap, n) =>
        let valueGroups := splitValueGroups cap
        let sampled := (valueGroups.enum.filter
          (fun p => p.1 % rate = 0)).map (fun p => p.2)
        let out :=
          if sampled.length < valueGroups.length then
            "insert into ".data ++ tbl ++ " values ".data ++
              joinValueGroups sampled ++ [';']
          else (c :: cs).take n
        out ++ sampleInsertFuel rate fuel ((c :: cs).drop (max 1 n))
      | none => c :: sampleInsertFuel rate fuel cs

/-- Global sweep of the INSERT-sampling regex with its callback. -/
def sampleInsertPass (rate : Nat) (l : List Char) : List Char :=
  sampleInsertFuel rate (l.length + 1) l

/-- The option keys the SQL engine actually reads (`getSQLOptions` declares
further registry-only keys — `formatStatements`, `lowercaseKeywords` — that
no code path consults). -/
structure SQLOptions where
  removeComments : Option Bool := none
  removeExplain : Option Bool := none
  shortenAliases : Option Bool := none
  removeOptionalKeywords : Option Bool := none
  combineInserts : Option Bool := none
  removeSchemaChanges : Option Bool := none
  keepDataOnly : Option Bool := none
  removeTransactions : Option Bool := none
  removeConstraints : Option Bool := none
  sampleInserts : Option Bool := none
  insertSampleRate : Option Nat := none
  deriving Repr

/-- Comment-stripping stage of `applyMinimalSQLCompression`. -/
def sqlCommentsStage (customOptions : SQLOptions)
    (p : String × List Operation) : String × List Operation :=
  if optOn customOptions.removeComments then
    let before := jsLength p.1
    let t : String := ⟨stripBlockComments (stripLineComments p.1.data)⟩
    if jsLength t < before then
      (t, p.2 ++
        [({ type := "remove_comments", count := some 1,
            reversible := false, impact := "low" } : Operation)])
    else (t, p.2)
  else p

/-- Whitespace-collapsing stage of `applyMinimalSQLCompression`
(unconditional). -/
def sqlWhitespaceStage (p : String × List Operation) : String × List Operation :=
  let before := jsLength p.1
  let t : String := jsTrim ⟨delimSpaces (collapseWS p.1.data)⟩
  if jsLength t < before then
    (t, p.2 ++
      [({ type := "remove_whitespace", count := some (before - jsLength t),
          reversible := false, impact := "low" } : Operation)])
  else (t, p.2)

/-- `applyMinimalSQLCompression`. -/
def applyMinimalSQLCompression (sql : String) (operations : List Operation)
    (customOptions : SQLOptions) : String × List Operation :=
  sqlWhitespaceStage (sqlCommentsStage customOptions (sql, operations))

/-- Keyword-lowercasing stage of `applyModerateSQLCompression`
(unconditional; the operation is logged only when the text got shorter,
which a pure case change never achieves). -/
def sqlLowercaseStage (p : String × List Operation) : String × List Operation :=
  let before := jsLength p.1
  let t : String := ⟨lowercaseKeywords p.1.data⟩
  if jsLength t < before then
    (t, p.2 ++
      [({ type := "lowercase_keywords", count := some sqlKeywords.length,
          reversible := true, impact := "low" } : Operation)])
  else (t, p.2)

/-- EXPLAIN-removal stage of `applyModerateSQLCompression`. -/
def sqlExplainStage (customOptions : SQLOptions)
    (p : String × List Operation) : String × List Operation :=
  if optOn customOptions.removeExplain then
    let before := jsLength p.1
    let t : String := ⟨removeExplainPass false p.1.data⟩
    if jsLength t < before then
      (t, p.2 ++
        [({ type := "remove_explain", count := some 1,
            reversible := false, impact := "low" } : Operation)])
    else (t, p.2)
  else p

/-- Alias-shortening stage of `applyModerateSQLCompression`. -/
def sqlAliasStage (customOptions : SQLOptions)
    (p : String × List Operation) : String × List Operation :=
  if optOn customOptions.shortenAliases then
    let aliasMap := buildAliasMap (findAliases p.1.data)
    let t : String := ⟨applyAliasMap aliasMap p.1.data⟩
    if aliasMap.length > 0 then
      (t, p.2 ++
        [({ type := "shorten_aliases", count := some aliasMap.length,
            reversible := false, impact := "medium" } : Operation)])
    else (t, p.2)
  else p

/-- Optional-keyword removal stage of `applyModerateSQLCompression`. -/
def sqlOptKeywordsStage (customOptions : SQLOptions)
    (p : String × List Operation) : String × List Operation :=
  if optOn customOptions.removeOptionalKeywords then
    let before := jsLength p.1
    let t : String :=
      ⟨cascadePass (publicDotPass false (outerJoinPass false p.1.data))⟩
    if jsLength t < before then
      (t, p.2 ++
        [({ type := "remove_optional_keywords", count := some 1,
            reversible := false, impact := "medium" } : Operation)])
    else (t, p.2)
  else p

/-- INSERT-combining stage of `applyModerateSQLCompression`. -/
def sqlCombineStage (customOptions : SQLOptions)
    (p : String × List Operation) : String × List Operation :=
  if optOn customOptions.combineInserts then
    let (t, combined) := combineLoop (p.1.data.length + 1) p.1.data 0
    let t2 : String := ⟨t⟩
    if combined > 0 then
      (t2, p.2 ++
        [({ type := "combine_insert_statements", count := some combined,
            reversible := false, impact := "medium" } : Operation)])
    else (t2, p.2)
  else p

/-- `applyModerateSQLCompression`, as the composition of its stages in
source order. -/
def applyModerateSQLCompression (sql : String) (operations : List Operation)
    (customOptions : SQLOptions) : String × List Operation :=
  sqlCombineStage customOptions
    (sqlOptKeywordsStage customOptions
      (sqlAliasStage customOptions
        (sqlExplainStage customOptions
          (sqlLowercaseStage
            (applyMinimalSQLCompression sql operations customOptions)))))

/-- CREATE/DROP/ALTER statement removal stage of
`applyAggressiveSQLCompression` (enabled unless `removeSchemaChanges` is
explicitly `false`). -/
def sqlSchemaStage (customOptions : SQLOptions)
    (p : String × List Operation) : String × List Operation :=
  if optOn customOptions.removeSchemaChanges then
    let before := jsLength p.1
    let seconds := ["table", "database", "index", "view"]
    let t : String :=
      ⟨stmtRemovalPass "alter" ["table"] false
        (stmtRemovalPass "drop" seconds false
          (stmtRemovalPass "create" seconds false p.1.data))⟩
    if jsLength t < before then
      (t, p.2 ++
        [({ type := "remove_schema_changes", count := some 1,
            reversible := false, impact := "high" } : Operation)])
    else (t, p.2)
  else p

/-- Data-statement filter stage of `applyAggressiveSQLCompression`
(opt-in via `keepDataOnly`). -/
def sqlKeepDataStage (customOptions : SQLOptions)
    (p : String × List Operation) : String × List Operation :=
  if optTruthy customOptions.keepDataOnly then
    let statements := (jsSplit ';' p.1).filter (fun s => jsTrim s ≠ "")
    let startsWithStr := fun (pre t : String) => (matchCS pre.data t.data).isSome
    let dataStatements := statements.filter (fun stmt =>
      let t : String := ⟨(jsTrim stmt).data.map Char.toLower⟩
      startsWithStr "insert" t || startsWithStr "update" t ||
        startsWithStr "select" t || startsWithStr "delete" t)
    if dataStatements.length < statements.length then
      (joinSep ';' dataStatements ++
         (if dataStatements.length > 0 then ";" else ""),
       p.2 ++
        [({ type := "keep_data_statements_only",
            kept := some dataStatements.length,
            removed := some ((statements.length : Int) - dataStatements.length),
            reversible := false, impact := "high" } : Operation)])
    else p
  else p

/-- Transaction-statement removal stage of `applyAggressiveSQLCompression`
(enabled unless `removeTransactions` is explicitly `false`). -/
def sqlTransactionsStage (customOptions : SQLOptions)
    (p : String × List Operation) : String × List Operation :=
  if optOn customOptions.removeTransactions then
    let before := jsLength p.1
    let t : String := ⟨transactionPass false p.1.data⟩
    if jsLength t < before then
      (t, p.2 ++
        [({ type := "remove_transactions", count := some 1,
            reversible := false, impact := "high" } : Operation)])
    else (t, p.2)
  else p

/-- Constraint-removal stage of `applyAggressiveSQLCompression`
(opt-in via `removeConstraints`). -/
def sqlConstraintsStage (customOptions : SQLOptions)
    (p : String × List Operation) : String × List Operation :=
  if optTruthy customOptions.removeConstraints then
    let before := jsLength p.1
    let t : String :=
      ⟨constraintWordPass (constraintParenPass p.1.data)⟩
    if jsLength t < before then
      (t, p.2 ++
        [({ type := "remove_constraints", count := some 1,
            reversible := false, impact := "high" } : Operation)])
    else (t, p.2)
  else p

/-- INSERT-sampling stage of `applyAggressiveSQLCompression`
(opt-in via `sampleInserts`). -/
def sqlSampleStage (customOptions : SQLOptions)
    (p : String × List Operation) : String × List Operation :=
  if optTruthy customOptions.sampleInserts then
    let before := jsLength p.1
    let sampleRate := numOr customOptions.insertSampleRate 5
    let t : String := ⟨sampleInsertPass sampleRate p.1.data⟩
    if jsLength t < before then
      (t, p.2 ++
        [({ type := "sample_insert_rows", sampleRate := some sampleRate,
            reversible := false, impact := "high" } : Operation)])
    else (t, p.2)
  else p

/-- `applyAggressiveSQLCompression`, as the composition of its stages in
source order. -/
def applyAggressiveSQLCompression (sql : String) (operations : List Operation)
    (customOptions : SQLOptions) : String × List Operation :=
  sqlSampleStage customOptions
    (sqlConstraintsStage customOptions
      (sqlTransactionsStage customOptions
        (sqlKeepDataStage customOptions
          (sqlSchemaStage customOptions
            (applyModerateSQLCompression sql operations customOptions)))))


/-- `compressSQL` entry point. -/
def compressSQL (content : String) (lossLevel : String)
    (customOptions : SQLOptions) : Except String CompressionResult := do
  let originalSize := jsLength content
  let (compressed, operations) ←
    match lossLevel with
    | "minimal" => pure (applyMinimalSQLCompression content [] customOptions)
    | "moderate" => pure (applyModerateSQLCompression content [] customOptions)
    | "aggressive" =>
      pure (applyAggressiveSQLCompression content [] customOptions)
    | _ => throw "Invalid loss level"
  pure { compressed, operations, originalSize,
         compressedSize := jsLength compressed }

/-! ## Preview / recommendation engine (preview.js) -/

/-- One tier's row of the preview result (the display-only `sizeFormatted`
string is omitted; successful rows carry `compressed`, failed rows carry
`error`). -/
structure PreviewRow where
  size : Nat
  reduction : ℚ
  operations : List Operation
  compressed : Option String := none
  error : Option String := none
  deriving Repr, DecidableEq

/-- The three tier rows. -/
structure PreviewResults where
  minimal : PreviewRow
  moderate : PreviewRow
  aggressive : PreviewRow
  deriving Repr, DecidableEq

structure Recommendation where
  level : String
  effectiveMinimal : Bool
  effectiveModerate : Bool
  effectiveAggressive : Bool
  reason : String
  deriving Repr, DecidableEq

structure PreviewResult where
  originalSize : Nat
  results : PreviewResults
  recommendation : Recommendation
  deriving Repr, DecidableEq

/-- One iteration of `analyzeFile`'s per-level loop, with its
`try`/`catch`. -/
def previewRow (engine : String → String → α → Except String CompressionResult)
    (content : String) (customOptions : α) (originalSize : Nat)
    (level : String) : PreviewRow :=
  match engine content level customOptions with
  | .ok result =>
    { size := result.compressedSize,
      reduction := qMul (qDiv (qSub (originalSize : ℚ)
        (result.compressedSize : ℚ)) (originalSize : ℚ)) 100,
      operations := result.operations,
      compressed := some result.compressed }
  | .error e =>
    { size := originalSize, reduction := 0, operations := [],
      error := some e }

/-- `getRecommendationReason`. -/
def getRecommendationReason (results : PreviewResults) (level : String) :
    String :=
  let reduction :=
    if level = "minimal" then results.minimal.reduction
    else if level = "moderate" then results.moderate.reduction
    else results.aggressive.reduction
  if reduction > 70 then
    level ++ " level achieves excellent " ++ jsToFixed 1 reduction ++
      "% reduction"
  else if reduction > 50 then
    level ++ " level provides strong " ++ jsToFixed 1 reduction ++
      "% compression"
  else if reduction > 30 then
    level ++ " level offers balanced " ++ jsToFixed 1 reduction ++
      "% reduction"
  else if reduction > 10 then
    level ++ " level gives modest " ++ jsToFixed 1 reduction ++ "% savings"
  else
    "Limited compression opportunity for this file"

/-- `analyzeFile`, parameterised by the engine the `compressionEngines`
table dispatches to for the requested file type. -/
def analyzeFile (engine : String → String → α → Except String CompressionResult)
    (content : String) (customOptions : α) : PreviewResult :=
  let originalSize := blobSize content
  let results : PreviewResults :=
    { minimal := previewRow engine content customOptions originalSize "minimal",
      moderate := previewRow engine content customOptions originalSize "moderate",
      aggressive :=
        previewRow engine content customOptions originalSize "aggressive" }
  let effectiveMinimal := results.minimal.reduction > 5
  let effectiveModerate := results.moderate.reduction > 5
  let effectiveAggressive := results.aggressive.reduction > 5
  let recommendedLevel :=
    if results.aggressive.reduction > 50 ∧ effectiveAggressive then
      "aggressive"
    else if results.moderate.reduction > 30 ∧ effectiveModerate then
      "moderate"
    else if effectiveMinimal then "minimal"
    else "moderate"
  { originalSize, results,
    recommendation :=
      { level := recommendedLevel,
        effectiveMinimal := effectiveMinimal,
        effectiveModerate := effectiveModerate,
        effectiveAggressive := effectiveAggressive,
        reason := getRecommendationReason results recommendedLevel } }

/-! ## Spec-side definitions

These definitions follow the specification's words (reconstruction
procedures and normal forms the spec reasons about), to be compared with
the source-translated engine definitions above. -/

/-- Cumulative reconstruction described by the spec for delta encoding:
starting from the emitted base value, each delta is added to the running
value. -/
def deltaReconstruct (base : ℚ) : List ℚ → List ℚ
  | [] => [base]
  | d :: ds => base :: deltaReconstruct (qAdd base d) ds

/-- Reconstruction of one delta-encoded column from its emitted strings:
the first entry is parsed as the base value, the rest as deltas, and the
deltas are cumulatively summed. -/
def reconstructColumn (encoded : List String) : List ℚ :=
  match encoded with
  | [] => []
  | base :: deltas =>
    deltaReconstruct ((jsParseFloat base).getD 0)
      (deltas.map (fun d => (jsParseFloat d).getD 0))

/-- Rank of a character in the base-62 alphabet (first occurrence). -/
def base62Val (c : Char) : Nat := go base62Chars
where
  go : List Char → Nat
    | [] => 0
    | x :: xs => if x = c then 0 else go xs + 1

/-- Value of a little-endian base-62 digit string (the spec's reading of an
overflow code's counter part). -/
def decodeBase62LE : List Char → Nat
  | [] => 0
  | c :: cs => base62Val c + 62 * decodeBase62LE cs

/-- Rank recovered from a short-key code: a bare alphabet character for the
first 62 ranks, and `62 +` the little-endian base-62 counter after a `"|"`
prefix for the rest. -/
def decodeShortKey (s : String) : Nat :=
  match s.data with
  | [] => 0
  | c :: ds => if c = '|' then 62 + decodeBase62LE ds else decodeBase62LE (c :: ds)

/-- The spec's pre-processing normal form for CSV input: every line whose
trimmed text is empty is dropped before any option-gated processing. -/
def normalizeBlankLines (content : String) : String :=
  joinSep '\n' ((jsSplit '\n' content).filter (fun l => jsTrim l ≠ ""))

/-- Options under which the aggressive CSV tier dereferences `dataLines[0]`
on a header-only file and throws, while the other tiers succeed. -/
def csvHeaderOnlyOpts : CSVOptions :=
  { removeNonEssentialColumns := some true, essentialColumnIndices := some [0] }

/-- An operation whose logged count fields witness a real change: neither
the `count` nor the `columns` field records zero. -/
def opNonZero (op : Operation) : Prop := op.count ≠ some 0 ∧ op.columns ≠ some 0

/-- An operation that is neither of the two schema-level removals of the
aggressive SQL tier. -/
def schemaSafeOp (op : Operation) : Prop :=
  op.type ≠ "remove_schema_changes" ∧ op.type ≠ "remove_transactions"

/-! ## Helper lemmas -/

theorem opsAppend_pred {P : Operation → Prop} {ops : List Operation} {x : Operation}
    (h : ∀ op ∈ ops, P op) (hx : P x) : ∀ op ∈ ops ++ [x], P op := by
  intro op hop
  rcases List.mem_append.mp hop with h1 | h1
  · exact h op h1
  · rw [List.mem_singleton.mp h1]; exact hx

theorem minimal_stage_nonzero (header : String) (dl : List String)
    (ops : List Operation) (opts : CSVOptions)
    (hops : ∀ op ∈ ops, opNonZero op) :
    ∀ op ∈ (applyMinimalCSVCompression header dl ops opts).operations, opNonZero op := by
  unfold applyMinimalCSVCompression
  split
  next dataLines operations heq =>
    have hbase : ∀ op ∈ operations, opNonZero op := by
      split at heq
      · dsimp only at heq
        split at heq
        · injection heq with h1 h2
          subst h2
          exact opsAppend_pred hops
            ⟨by simp only [ne_eq, Option.some.injEq]; omega, by simp⟩
        · injection heq with h1 h2
          subst h2
          exact hops
      · injection heq with h1 h2
        subst h2
        exact hops
    dsimp only
    split
    · exact opsAppend_pred hbase
        ⟨by simp only [ne_eq, Option.some.injEq]; omega, by simp⟩
    · exact hbase

theorem csvDedupStage_nonzero (opts : CSVOptions) (st : CSVStage)
    (h : ∀ op ∈ st.operations, opNonZero op) :
    ∀ op ∈ (csvDedupStage opts st).operations, opNonZero op := by
  unfold csvDedupStage
  split
  · dsimp only
    split
    · exact opsAppend_pred h
        ⟨by simp only [ne_eq, Option.some.injEq]; omega, by simp⟩
    · exact h
  · exact h

theorem csvRoundStage_nonzero (opts : CSVOptions) (st : CSVStage)
    (h : ∀ op ∈ st.operations, opNonZero op) :
    ∀ op ∈ (csvRoundStage opts st).operations, opNonZero op := by
  unfold csvRoundStage
  split
  · dsimp only
    split
    · exact opsAppend_pred h
        ⟨by simp only [ne_eq, Option.some.injEq]; omega, by simp⟩
    · exact h
  · exact h

theorem csvDeltaStage_nonzero (opts : CSVOptions) (st : CSVStage)
    (h : ∀ op ∈ st.operations, opNonZero op) :
    ∀ op ∈ (csvDeltaStage opts st).operations, opNonZero op := by
  unfold csvDeltaStage
  split
  · dsimp only
    split
    · exact opsAppend_pred h
        ⟨by simp, by simp only [ne_eq, Option.some.injEq]; omega⟩
    · exact h
  · exact h

theorem csvDictStage_nonzero (opts : CSVOptions) (st : CSVStage)
    (h : ∀ op ∈ st.operations, opNonZero op) :
    ∀ op ∈ (csvDictStage opts st).operations, opNonZero op := by
  unfold csvDictStage
  split
  · dsimp only
    split
    · exact opsAppend_pred h
        ⟨by simp, by simp only [ne_eq, Option.some.injEq]; omega⟩
    · exact h
  · exact h

theorem csvLowVarStage_nonzero (opts : CSVOptions) (st : CSVStage)
    (h : ∀ op ∈ st.operations, opNonZero op) :
    ∀ op ∈ (csvLowVarStage opts st).operations, opNonZero op := by
  unfold csvLowVarStage
  split
  · dsimp only
    split
    · exact opsAppend_pred h
        ⟨by simp only [ne_eq, Option.some.injEq]; omega, by simp⟩
    · exact h
  · exact h

theorem csvTruncStage_nonzero (opts : CSVOptions) (st : CSVStage)
    (h : ∀ op ∈ st.operations, opNonZero op) :
    ∀ op ∈ (csvTruncStage opts st).operations, opNonZero op := by
  unfold csvTruncStage
  split
  · dsimp only
    split
    · exact opsAppend_pred h
        ⟨by simp only [ne_eq, Option.some.injEq]; omega, by simp⟩
    · exact h
  · exact h

theorem sqlCommentsStage_schemaSafe (opts : SQLOptions) (p : String × List Operation)
    (h : ∀ op ∈ p.2, schemaSafeOp op) :
    ∀ op ∈ (sqlCommentsStage opts p).2, schemaSafeOp op := by
  unfold sqlCommentsStage
  split
  · dsimp only
    split
    · exact opsAppend_pred h ⟨by simp [schemaSafeOp], by simp [schemaSafeOp]⟩
    · exact h
  · exact h

theorem sqlWhitespaceStage_schemaSafe (p : String × List Operation)
    (h : ∀ op ∈ p.2, schemaSafeOp op) :
    ∀ op ∈ (sqlWhitespaceStage p).2, schemaSafeOp op := by
  unfold sqlWhitespaceStage
  dsimp only
  split
  · exact opsAppend_pred h ⟨by simp [schemaSafeOp], by simp [schemaSafeOp]⟩
  · exact h

theorem sqlLowercaseStage_schemaSafe (p : String × List Operation)
    (h : ∀ op ∈ p.2, schemaSafeOp op) :
    ∀ op ∈ (sqlLowercaseStage p).2, schemaSafeOp op := by
  unfold sqlLowercaseStage
  dsimp only
  split
  · exact opsAppend_pred h ⟨by simp [schemaSafeOp], by simp [schemaSafeOp]⟩
  · exact h

theorem sqlExplainStage_schemaSafe (opts : SQLOptions) (p : String × List Operation)
    (h : ∀ op ∈ p.2, schemaSafeOp op) :
    ∀ op ∈ (sqlExplainStage opts p).2, schemaSafeOp op := by
  unfold sqlExplainStage
  split
  · dsimp only
    split
    · exact opsAppend_pred h ⟨by simp [schemaSafeOp], by simp [schemaSafeOp]⟩
    · exact h
  · exact h

theorem sqlAliasStage_schemaSafe (opts : SQLOptions) (p : String × List Operation)
    (h : ∀ op ∈ p.2, schemaSafeOp op) :
    ∀ op ∈ (sqlAliasStage opts p).2, schemaSafeOp op := by
  unfold sqlAliasStage
  split
  · dsimp only
    split
    · exact opsAppend_pred h ⟨by simp [schemaSafeOp], by simp [schemaSafeOp]⟩
    · exact h
  · exact h

theorem sqlOptKeywordsStage_schemaSafe (opts : SQLOptions) (p : String × List Operation)
    (h : ∀ op ∈ p.2, schemaSafeOp op) :
    ∀ op ∈ (sqlOptKeywordsStage opts p).2, schemaSafeOp op := by
  unfold sqlOptKeywordsStage
  split
  · dsimp only
    split
    · exact opsAppend_pred h ⟨by simp [schemaSafeOp], by simp [schemaSafeOp]⟩
    · exact h
  · exact h

theorem sqlCombineStage_schemaSafe (opts : SQLOptions) (p : String × List Operation)
    (h : ∀ op ∈ p.2, schemaSafeOp op) :
    ∀ op ∈ (sqlCombineStage opts p).2, schemaSafeOp op := by
  unfold sqlCombineStage
  split
  · rw [show combineLoop (p.1.data.length + 1) p.1.data 0 =
      ((combineLoop (p.1.data.length + 1) p.1.data 0).1,
       (combineLoop (p.1.data.length + 1) p.1.data 0).2) from rfl]
    dsimp only
    split
    · exact opsAppend_pred h ⟨by simp [schemaSafeOp], by simp [schemaSafeOp]⟩
    · exact h
  · exact h

theorem sqlKeepDataStage_schemaSafe (opts : SQLOptions) (p : String × List Operation)
    (h : ∀ op ∈ p.2, schemaSafeOp op) :
    ∀ op ∈ (sqlKeepDataStage opts p).2, schemaSafeOp op := by
  unfold sqlKeepDataStage
  split
  · dsimp only
    split
    · exact opsAppend_pred h ⟨by simp [schemaSafeOp], by simp [schemaSafeOp]⟩
    · exact h
  · exact h

theorem sqlConstraintsStage_schemaSafe (opts : SQLOptions) (p : String × List Operation)
    (h : ∀ op ∈ p.2, schemaSafeOp op) :
    ∀ op ∈ (sqlConstraintsStage opts p).2, schemaSafeOp op := by
  unfold sqlConstraintsStage
  split
  · dsimp only
    split
    · exact opsAppend_pred h ⟨by simp [schemaSafeOp], by simp [schemaSafeOp]⟩
    · exact h
  · exact h

theorem sqlSampleStage_schemaSafe (opts : SQLOptions) (p : String × List Operation)
    (h : ∀ op ∈ p.2, schemaSafeOp op) :
    ∀ op ∈ (sqlSampleStage opts p).2, schemaSafeOp op := by
  unfold sqlSampleStage
  split
  · dsimp only
    split
    · exact opsAppend_pred h ⟨by simp [schemaSafeOp], by simp [schemaSafeOp]⟩
    · exact h
  · exact h

theorem sqlSchemaStage_disabled (opts : SQLOptions) (p : String × List Operation)
    (hoff : opts.removeSchemaChanges = some false) :
    sqlSchemaStage opts p = p := by
  unfold sqlSchemaStage
  rw [if_neg]
  simp [optOn, hoff]

theorem sqlTransactionsStage_disabled (opts : SQLOptions) (p : String × List Operation)
    (hoff : opts.removeTransactions = some false) :
    sqlTransactionsStage opts p = p := by
  unfold sqlTransactionsStage
  rw [if_neg]
  simp [optOn, hoff]

theorem getRecommendationReason_limited (results : PreviewResults) (level : String)
    (h1 : results.minimal.reduction ≤ 10) (h2 : results.moderate.reduction ≤ 10)
    (h3 : results.aggressive.reduction ≤ 10) :
    getRecommendationReason results level =
      "Limited compression opportunity for this file" := by
  simp only [getRecommendationReason]
  split_ifs <;> first | rfl | linarith

theorem base62Val_getD : ∀ d, d < 62 → base62Val (base62Chars.getD d '0') = d := by
  decide

theorem decodeBase62LE_shortKeyDigitsFuel :
    ∀ fuel n, n < fuel → decodeBase62LE (shortKeyDigitsFuel fuel n) = n := by
  intro fuel
  induction fuel with
  | zero => intro n h; omega
  | succ f ih =>
    intro n h
    have hv := base62Val_getD (n % 62) (Nat.mod_lt _ (by omega))
    rw [shortKeyDigitsFuel]
    by_cases h0 : n / 62 = 0
    · rw [if_pos h0, decodeBase62LE, decodeBase62LE, hv]
      omega
    · have hrec : n / 62 < f := by
        have := Nat.div_lt_self (by omega : 0 < n) (by omega : 1 < 62)
        omega
      rw [if_neg h0, decodeBase62LE, hv, ih _ hrec]
      omega

theorem splitChars_ne_nil (sep : Char) (l : List Char) : splitChars sep l ≠ [] := by
  induction l with
  | nil => simp [splitChars]
  | cons c cs ih =>
    simp only [splitChars]
    split
    · simp
    · split
      · simp
      · simp

theorem splitChars_no_sep (sep : Char) (l : List Char) :
    ∀ piece ∈ splitChars sep l, sep ∉ piece := by
  induction l with
  | nil => intro piece hp; simp [splitChars] at hp; simp [hp]
  | cons c cs ih =>
    intro piece hp
    simp only [splitChars] at hp
    by_cases hc : c = sep
    · rw [if_pos hc] at hp
      rcases List.mem_cons.mp hp with h | h
      · simp [h]
      · exact ih piece h
    · rw [if_neg hc] at hp
      cases hsc : splitChars sep cs with
      | nil => exact absurd hsc (splitChars_ne_nil sep cs)
      | cons p more =>
        rw [hsc] at hp
        simp only [] at hp
        rcases List.mem_cons.mp hp with h | h
        · subst h
          intro hmem
          rcases List.mem_cons.mp hmem with h1 | h1
          · exact hc h1.symm
          · exact ih p (hsc ▸ List.mem_cons_self p more) h1
        · exact ih piece (hsc ▸ List.mem_cons_of_mem p h)

theorem splitChars_sep_free (sep : Char) (l : List Char) (h : sep ∉ l) :
    splitChars sep l = [l] := by
  induction l with
  | nil => rfl
  | cons c cs ih =>
    have hc : ¬c = sep := fun hc => h (hc ▸ List.mem_cons_self c cs)
    have hcs : sep ∉ cs := fun hm => h (List.mem_cons_of_mem c hm)
    simp only [splitChars, ih hcs, if_neg hc]

theorem splitChars_append_sep (sep : Char) (pre suf : List Char) (h : sep ∉ pre) :
    splitChars sep (pre ++ sep :: suf) = pre :: splitChars sep suf := by
  induction pre with
  | nil => simp [splitChars]
  | cons c pre' ih =>
    have hc : ¬c = sep := fun hc => h (hc ▸ List.mem_cons_self c pre')
    have hpre : sep ∉ pre' := fun hm => h (List.mem_cons_of_mem c hm)
    simp only [List.cons_append, splitChars, List.append_eq, ih hpre, if_neg hc]

theorem jsSplit_joinSep (sep : Char) (xs : List String) (hne : xs ≠ [])
    (hfree : ∀ x ∈ xs, sep ∉ x.data) :
    jsSplit sep (joinSep sep xs) = xs := by
  induction xs with
  | nil => exact absurd rfl hne
  | cons x rest ih =>
    cases rest with
    | nil =>
      simp only [joinSep, jsSplit]
      rw [splitChars_sep_free sep x.data (hfree x (List.mem_cons_self x []))]
      rfl
    | cons y rest' =>
      have hx : sep ∉ x.data := hfree x (List.mem_cons_self x (y :: rest'))
      have hrest : ∀ z ∈ y :: rest', sep ∉ z.data := fun z hz =>
        hfree z (List.mem_cons_of_mem x hz)
      simp only [joinSep, jsSplit]
      have hdata : (x ++ String.singleton sep ++ joinSep sep (y :: rest')).data =
          x.data ++ sep :: (joinSep sep (y :: rest')).data := by
        simp [String.data_append, String.singleton]
      rw [hdata, splitChars_append_sep sep _ _ hx]
      have := ih (by simp) hrest
      simp only [jsSplit] at this
      simp [this]

theorem jsTrim_eq_empty_all_ws (s : String) (h : jsTrim s = "") :
    ∀ c ∈ s.data, jsIsWS c := by
  have hdata : (((s.data.dropWhile jsIsWS).reverse.dropWhile jsIsWS).reverse) = [] := by
    have := congrArg String.data h
    simpa [jsTrim] using this
  rw [List.reverse_eq_nil_iff, List.dropWhile_eq_nil_iff] at hdata
  have hall : ∀ c ∈ s.data.dropWhile jsIsWS, jsIsWS c := by
    intro c hc
    exact hdata c (List.mem_reverse.mpr hc)
  intro c hc
  rcases List.mem_append.mp ((List.takeWhile_append_dropWhile (p := jsIsWS)
      (l := s.data)) ▸ hc) with h1 | h1
  · exact List.mem_takeWhile_imp h1
  · exact hall c h1

theorem dropWhile_mem_last {p : Char → Bool} (xs : List Char) (d : Char)
    (hd : ¬p d) : d ∈ (xs ++ [d]).dropWhile p := by
  induction xs with
  | nil => simp [List.dropWhile, hd]
  | cons x xs' ih =>
    by_cases hx : p x
    · simpa [List.dropWhile, hx] using ih
    · simp [List.dropWhile, hx]

theorem dropWhile_head_not {p : Char → Bool} :
    ∀ (l : List Char) (c : Char) (t : List Char), l.dropWhile p = c :: t → ¬p c := by
  intro l
  induction l with
  | nil => intro c t h; simp [List.dropWhile] at h
  | cons x xs ih =>
    intro c t h
    by_cases hx : p x
    · rw [List.dropWhile_cons_of_pos hx] at h
      exact ih c t h
    · rw [List.dropWhile_cons_of_neg hx] at h
      injection h with h1 h2
      subst h1
      exact hx

theorem jsTrim_nonempty_has_non_ws (s : String) (h : jsTrim s ≠ "") :
    ∃ c ∈ (jsTrim s).data, ¬jsIsWS c := by
  cases hfirst : s.data.dropWhile jsIsWS with
  | nil =>
    exfalso
    apply h
    have : (jsTrim s).data = [] := by simp [jsTrim, hfirst]
    cases hjt : jsTrim s with
    | mk data => rw [hjt] at this; simp at this; simp [this]
  | cons d tail =>
    have hd : ¬jsIsWS d := dropWhile_head_not _ d tail hfirst
    refine ⟨d, ?_, hd⟩
    have : d ∈ ((d :: tail).reverse.dropWhile jsIsWS) := by
      have : (d :: tail).reverse = tail.reverse ++ [d] := by simp
      rw [this]
      exact dropWhile_mem_last tail.reverse d hd
    simp only [jsTrim, hfirst]
    exact List.mem_reverse.mpr this

theorem normalizeBlankLines_lines (content : String) :
    (jsSplit '\n' (normalizeBlankLines content)).filter (fun l => jsTrim l ≠ "") =
    (jsSplit '\n' content).filter (fun l => jsTrim l ≠ "") := by
  unfold normalizeBlankLines
  cases hf : (jsSplit '\n' content).filter (fun l => jsTrim l ≠ "") with
  | nil =>
    simp only [hf, joinSep]
    have : jsSplit '\n' "" = [""] := by rfl
    rw [this]
    rfl
  | cons x rest =>
    have hfree : ∀ z ∈ x :: rest, '\n' ∉ z.data := by
      intro z hz
      have hz' : z ∈ (jsSplit '\n' content).filter (fun l => jsTrim l ≠ "") :=
        hf ▸ hz
      have hz'' : z ∈ jsSplit '\n' content := List.mem_of_mem_filter hz'
      simp only [jsSplit, List.mem_map] at hz''
      rcases hz'' with ⟨piece, hpiece, hzp⟩
      subst hzp
      exact splitChars_no_sep '\n' content.data piece hpiece
    rw [← hf, jsSplit_joinSep '\n' _ (by rw [hf]; simp) (hf ▸ hfree)]
    rw [List.filter_filter]
    simp

theorem compressCSV_normalize_invariant (content lvl : String) (opts : CSVOptions) :
    (compressCSV (normalizeBlankLines content) lvl opts).map
      (fun r => (r.compressed, r.operations)) =
    (compressCSV content lvl opts).map (fun r => (r.compressed, r.operations)) := by
  unfold compressCSV
  rw [normalizeBlankLines_lines]
  dsimp only
  split <;> try rfl
  all_goals (split <;> try rfl)
  all_goals
    simp only [Except.map, bind, Except.bind, pure, Except.pure]
  all_goals
    cases happ : applyAggressiveCSVCompression
        ((List.filter (fun l => decide (jsTrim l ≠ "")) (jsSplit '\n' content)).headD "")
        (List.filter (fun l => decide (jsTrim l ≠ "")) (jsSplit '\n' content)).tail [] opts with
    | error e => rfl
    | ok v => rfl

theorem splitChars_singleton (sep : Char) (l p : List Char)
    (h : splitChars sep l = [p]) : p = l := by
  induction l generalizing p with
  | nil => simp [splitChars] at h; simp [h]
  | cons c cs ih =>
    simp only [splitChars] at h
    by_cases hc : c = sep
    · rw [if_pos hc] at h
      cases hrest : splitChars sep cs with
      | nil => exact absurd hrest (splitChars_ne_nil sep cs)
      | cons q more => rw [hrest] at h; simp at h
    · rw [if_neg hc] at h
      cases hrest : splitChars sep cs with
      | nil => exact absurd hrest (splitChars_ne_nil sep cs)
      | cons q more =>
        rw [hrest] at h
        simp only [List.cons.injEq] at h
        rcases h with ⟨hp, hmore⟩
        subst hmore
        have := ih q hrest
        subst this
        simp [hp]

theorem splitChars_mem_subset (sep : Char) (l : List Char) :
    ∀ piece ∈ splitChars sep l, ∀ c ∈ piece, c ∈ l := by
  induction l with
  | nil => intro piece hp c hc; simp [splitChars] at hp; subst hp; simp at hc
  | cons x cs ih =>
    intro piece hp c hc
    simp only [splitChars] at hp
    by_cases hx : x = sep
    · rw [if_pos hx] at hp
      rcases List.mem_cons.mp hp with h | h
      · subst h; simp at hc
      · exact List.mem_cons_of_mem x (ih piece h c hc)
    · rw [if_neg hx] at hp
      cases hrest : splitChars sep cs with
      | nil => exact absurd hrest (splitChars_ne_nil sep cs)
      | cons q more =>
        rw [hrest] at hp
        rcases List.mem_cons.mp hp with h | h
        · subst h
          rcases List.mem_cons.mp hc with h1 | h1
          · simp [h1]
          · exact List.mem_cons_of_mem x
              (ih q (hrest ▸ List.mem_cons_self q more) c h1)
        · exact List.mem_cons_of_mem x
            (ih piece (hrest ▸ List.mem_cons_of_mem q h) c hc)

theorem jsTrim_mem_subset (s : String) : ∀ c ∈ (jsTrim s).data, c ∈ s.data := by
  intro c hc
  simp only [jsTrim] at hc
  rw [List.mem_reverse] at hc
  have h1 := (List.dropWhile_sublist (l := (s.data.dropWhile jsIsWS).reverse)
    (p := jsIsWS)).subset hc
  rw [List.mem_reverse] at h1
  exact (List.dropWhile_sublist (l := s.data) (p := jsIsWS)).subset h1

theorem joinSep_mem (sep : Char) (xs : List String) :
    ∀ c ∈ (joinSep sep xs).data, c = sep ∨ ∃ x ∈ xs, c ∈ x.data := by
  induction xs with
  | nil => intro c hc; simp [joinSep] at hc
  | cons x rest ih =>
    cases rest with
    | nil =>
      intro c hc
      right
      exact ⟨x, List.mem_cons_self x [], hc⟩
    | cons y rest' =>
      intro c hc
      simp only [joinSep, String.data_append] at hc
      rcases List.mem_append.mp hc with h | h
      · rcases List.mem_append.mp h with h1 | h1
        · right; exact ⟨x, List.mem_cons_self x _, h1⟩
        · left
          simpa [String.singleton] using h1
      · rcases ih c h with h1 | ⟨z, hz, hcz⟩
        · left; exact h1
        · right; exact ⟨z, List.mem_cons_of_mem x hz, hcz⟩

theorem trimLine_chars (l : String) :
    ∀ c ∈ (trimLine l).data, c = ',' ∨ c ∈ l.data := by
  intro c hc
  unfold trimLine at hc
  rcases joinSep_mem ',' _ c hc with h | ⟨x, hx, hcx⟩
  · left; exact h
  · right
    rcases List.mem_map.mp hx with ⟨f, hf, hfx⟩
    subst hfx
    have h1 := jsTrim_mem_subset f c hcx
    rcases List.mem_map.mp (by simpa [jsSplit] using hf) with ⟨piece, hpiece, hpf⟩
    subst hpf
    exact splitChars_mem_subset ',' l.data piece hpiece c h1

theorem jsTrim_ne_empty_of_non_ws (s : String) (c : Char) (hc : c ∈ s.data)
    (hws : ¬jsIsWS c) : jsTrim s ≠ "" := by
  intro h
  exact hws (jsTrim_eq_empty_all_ws s h c hc)

theorem trimLine_nonblank (l : String) (h : jsTrim l ≠ "") :
    jsTrim (trimLine l) ≠ "" := by
  cases hsp : jsSplit ',' l with
  | nil =>
    exfalso
    apply splitChars_ne_nil ',' l.data
    have hnil := hsp
    simp only [jsSplit, List.map_eq_nil_iff] at hnil
    exact hnil
  | cons f rest =>
    cases rest with
    | nil =>
      have hpiece : splitChars ',' l.data = [f.data] := by
        have hm := hsp
        simp only [jsSplit] at hm
        cases hsc : splitChars ',' l.data with
        | nil => exact absurd hsc (splitChars_ne_nil ',' l.data)
        | cons p more =>
          rw [hsc] at hm
          simp only [List.map_cons, List.cons.injEq] at hm
          rcases hm with ⟨hpf, hmore⟩
          have : more = [] := by
            cases more with
            | nil => rfl
            | cons a b => simp at hmore
          subst this
          rw [← hpf]
      have hfl : f.data = l.data := splitChars_singleton ',' l.data f.data hpiece
      have hfl' : f = l := by
        cases f with
        | mk d =>
          cases l with
          | mk d' => simp at hfl; simp [hfl]
      have htl : trimLine l = jsTrim l := by
        unfold trimLine
        rw [hsp, hfl']
        rfl
      rw [htl]
      rcases jsTrim_nonempty_has_non_ws l h with ⟨c, hc, hcws⟩
      exact jsTrim_ne_empty_of_non_ws (jsTrim l) c hc hcws
    | cons f2 rest2 =>
      have hcm : ',' ∈ (trimLine l).data := by
        unfold trimLine
        rw [hsp]
        simp only [List.map_cons, joinSep, String.data_append]
        refine List.mem_append.mpr (Or.inl ?_)
        refine List.mem_append.mpr (Or.inr ?_)
        simp [String.singleton]
      exact jsTrim_ne_empty_of_non_ws (trimLine l) ',' hcm (by decide)

theorem applyMinimalCSV_header (header : String) (dl : List String)
    (ops : List Operation) (opts : CSVOptions) :
    (applyMinimalCSVCompression header dl ops opts).header = header := by
  unfold applyMinimalCSVCompression
  split
  next dataLines operations heq => rfl

theorem applyMinimalCSV_dataLines (header : String) (dl : List String)
    (ops : List Operation) (opts : CSVOptions) :
    ∀ x ∈ (applyMinimalCSVCompression header dl ops opts).dataLines,
      ∃ y ∈ dl, x = trimLine y := by
  unfold applyMinimalCSVCompression
  split
  next dataLines operations heq =>
    have hsub : ∀ y ∈ dataLines, y ∈ dl := by
      split at heq
      · dsimp only at heq
        split at heq
        · injection heq with h1 h2
          subst h1
          intro y hy
          exact List.mem_of_mem_filter hy
        · injection heq with h1 h2
          subst h1
          intro y hy
          exact List.mem_of_mem_filter hy
      · injection heq with h1 h2
        subst h1
        intro y hy
        exact hy
    dsimp only
    intro x hx
    rcases List.mem_map.mp hx with ⟨y, hy, hxy⟩
    exact ⟨y, hsub y hy, hxy.symm⟩

theorem compressCSV_minimal_no_blank (content : String) (opts : CSVOptions)
    (r : CompressionResult) (h : compressCSV content "minimal" opts = Except.ok r) :
    ∀ l ∈ jsSplit '\n' r.compressed, jsTrim l ≠ "" := by
  unfold compressCSV at h
  dsimp only at h
  split at h
  · simp only [throw, throwThe, MonadExceptOf.throw, bind, Except.bind] at h
    exact absurd h (by simp)
  · rename_i hne
    simp only [bind, Except.bind, pure, Except.pure, Except.ok.injEq] at h
    subst h
    set lines := (jsSplit '\n' content).filter (fun l => jsTrim l ≠ "") with hlines
    have hnonblank : ∀ l ∈ lines, jsTrim l ≠ "" := by
      intro l hl
      have := List.of_mem_filter hl
      simpa using this
    have hfree : ∀ l ∈ lines, '\n' ∉ l.data := by
      intro l hl
      have hl' : l ∈ jsSplit '\n' content := List.mem_of_mem_filter hl
      simp only [jsSplit, List.mem_map] at hl'
      rcases hl' with ⟨piece, hpiece, hlp⟩
      subst hlp
      exact splitChars_no_sep '\n' content.data piece hpiece
    have hlne : lines ≠ [] := by
      intro hl
      rw [hl] at hne
      simp at hne
    have hhead : lines.headD "" ∈ lines := by
      cases hl : lines with
      | nil => exact absurd hl hlne
      | cons a t => simp
    set res := applyMinimalCSVCompression (lines.headD "") lines.tail [] opts with hres
    have hrh : res.header = lines.headD "" := applyMinimalCSV_header _ _ _ _
    have hrd := applyMinimalCSV_dataLines (lines.headD "") lines.tail [] opts
    have hall_free : ∀ x ∈ res.header :: res.dataLines, '\n' ∉ x.data := by
      intro x hx
      rcases List.mem_cons.mp hx with h1 | h1
      · subst h1
        rw [hrh]
        exact hfree _ hhead
      · rcases hrd x h1 with ⟨y, hy, hxy⟩
        subst hxy
        intro hmem
        rcases trimLine_chars y '\n' hmem with h2 | h2
        · exact absurd h2 (by decide)
        · exact hfree y (List.mem_of_mem_tail hy) h2
    have hsplit : jsSplit '\n' (joinSep '\n' (res.header :: res.dataLines)) =
        res.header :: res.dataLines :=
      jsSplit_joinSep '\n' _ (by simp) hall_free
    intro l hl
    dsimp only at hl
    rw [hsplit] at hl
    rcases List.mem_cons.mp hl with h1 | h1
    · subst h1
      rw [hrh]
      exact hnonblank _ hhead
    · rcases hrd l h1 with ⟨y, hy, hly⟩
      subst hly
      exact trimLine_nonblank y (hnonblank y (List.mem_of_mem_tail hy))

theorem digitOf_val : ∀ d, d < 10 → (digitOf d).toNat - 48 = d ∧ (digitOf d).isDigit = true := by
  decide

theorem digitsVal_foldl (ds : List Char) :
    ∀ a : Nat, ds.foldl (fun a c => 10 * a + (c.toNat - 48)) a =
      a * 10 ^ ds.length + digitsVal ds := by
  induction ds with
  | nil => intro a; simp [digitsVal]
  | cons c cs ih =>
    intro a
    simp only [List.foldl_cons, digitsVal, List.length_cons]
    rw [ih (10 * a + (c.toNat - 48)), ih (10 * 0 + (c.toNat - 48))]
    ring

theorem digitsVal_append (ds es : List Char) :
    digitsVal (ds ++ es) = digitsVal ds * 10 ^ es.length + digitsVal es := by
  unfold digitsVal
  rw [List.foldl_append]
  rw [digitsVal_foldl es (List.foldl (fun a c => 10 * a + (c.toNat - 48)) 0 ds)]
  rfl

theorem digitsVal_natDigitsLEFuel :
    ∀ fuel n, n < fuel → digitsVal (natDigitsLEFuel fuel n).reverse = n := by
  intro fuel
  induction fuel with
  | zero => intro n h; omega
  | succ f ih =>
    intro n h
    rw [natDigitsLEFuel]
    by_cases h0 : n / 10 = 0
    · rw [if_pos h0]
      simp only [List.reverse_cons, List.reverse_nil, List.nil_append]
      have : digitsVal [digitOf (n % 10)] = n % 10 := by
        simp [digitsVal, (digitOf_val (n % 10) (Nat.mod_lt _ (by omega))).1]
      rw [this]
      omega
    · rw [if_neg h0]
      simp only [List.reverse_cons]
      rw [digitsVal_append]
      have hrec : n / 10 < f := by
        have := Nat.div_lt_self (by omega : 0 < n) (by omega : 1 < 10)
        omega
      rw [ih _ hrec]
      have : digitsVal [digitOf (n % 10)] = n % 10 := by
        simp [digitsVal, (digitOf_val (n % 10) (Nat.mod_lt _ (by omega))).1]
      rw [this]
      simp only [List.length_singleton, pow_one]
      omega

theorem digitsVal_natDigits (n : Nat) : digitsVal (natDigits n) = n := by
  unfold natDigits natDigitsLE
  exact digitsVal_natDigitsLEFuel (n + 1) n (by omega)

theorem natDigitsLEFuel_digits :
    ∀ fuel n, ∀ c ∈ natDigitsLEFuel fuel n, c.isDigit = true := by
  intro fuel
  induction fuel with
  | zero => intro n c hc; simp [natDigitsLEFuel] at hc
  | succ f ih =>
    intro n c hc
    rw [natDigitsLEFuel] at hc
    rcases List.mem_cons.mp hc with h | h
    · subst h
      exact (digitOf_val (n % 10) (Nat.mod_lt _ (by omega))).2
    · split at h
      · simp at h
      · exact ih _ c h

theorem natDigits_digits (n : Nat) : ∀ c ∈ natDigits n, c.isDigit = true := by
  intro c hc
  unfold natDigits natDigitsLE at hc
  exact natDigitsLEFuel_digits (n + 1) n c (List.mem_reverse.mp hc)

theorem natDigitsLEFuel_length :
    ∀ fuel n k, n < 10 ^ k → 1 ≤ k → (natDigitsLEFuel fuel n).length ≤ k := by
  intro fuel
  induction fuel with
  | zero => intro n k hk h1; simp [natDigitsLEFuel]
  | succ f ih =>
    intro n k hk h1
    rw [natDigitsLEFuel]
    by_cases h0 : n / 10 = 0
    · rw [if_pos h0]; simpa using h1
    · rw [if_neg h0]
      simp only [List.length_cons]
      have hk2 : 2 ≤ k := by
        by_contra hc
        have hk1 : k = 1 := by omega
        subst hk1
        simp at hk
        omega
      have : n / 10 < 10 ^ (k - 1) := by
        have h10 : 10 ^ k = 10 ^ (k - 1) * 10 := by
          rw [← pow_succ]
          congr 1
          omega
        rw [h10] at hk
        exact Nat.div_lt_of_lt_mul (by omega)
      have := ih (n / 10) (k - 1) this (by omega)
      omega

theorem natDigits_length (n k : Nat) (hk : n < 10 ^ k) (h1 : 1 ≤ k) :
    (natDigits n).length ≤ k := by
  unfold natDigits natDigitsLE
  rw [List.length_reverse]
  exact natDigitsLEFuel_length (n + 1) n k hk h1

theorem digitsVal_padZeros (k : Nat) (ds : List Char) :
    digitsVal (padZeros k ds) = digitsVal ds := by
  unfold padZeros
  rw [digitsVal_append]
  have : digitsVal (List.replicate (k - ds.length) '0') = 0 := by
    induction (k - ds.length) with
    | zero => rfl
    | succ m ihm =>
      rw [List.replicate_succ]
      unfold digitsVal at ihm ⊢
      simp only [List.foldl_cons]
      have h48 : 10 * 0 + ('0'.toNat - 48) = 0 := by decide
      rw [h48]
      exact ihm
  rw [this]
  simp

theorem padZeros_length (k : Nat) (ds : List Char) (h : ds.length ≤ k) :
    (padZeros k ds).length = k := by
  unfold padZeros
  simp [List.length_replicate]
  omega

theorem padZeros_digits (k : Nat) (ds : List Char) (h : ∀ c ∈ ds, c.isDigit = true) :
    ∀ c ∈ padZeros k ds, c.isDigit = true := by
  intro c hc
  unfold padZeros at hc
  rcases List.mem_append.mp hc with h1 | h1
  · have := List.eq_of_mem_replicate h1
    subst this
    decide
  · exact h c h1

theorem takeWhile_append_all {p : Char → Bool} (ds r : List Char)
    (h : ∀ c ∈ ds, p c = true) : (ds ++ r).takeWhile p = ds ++ r.takeWhile p := by
  induction ds with
  | nil => simp
  | cons c cs ih =>
    rw [List.cons_append, List.takeWhile_cons_of_pos (h c (List.mem_cons_self c cs)),
      ih (fun x hx => h x (List.mem_cons_of_mem c hx))]
    rfl

theorem dropWhile_append_all {p : Char → Bool} (ds r : List Char)
    (h : ∀ c ∈ ds, p c = true) : (ds ++ r).dropWhile p = r.dropWhile p := by
  induction ds with
  | nil => simp
  | cons c cs ih =>
    rw [List.cons_append, List.dropWhile_cons_of_pos (h c (List.mem_cons_self c cs))]
    exact ih (fun x hx => h x (List.mem_cons_of_mem c hx))

theorem span_digits_append (ids r : List Char) (hi : ∀ c ∈ ids, c.isDigit = true)
    (hr : r.takeWhile Char.isDigit = [] ) :
    (ids ++ r).span Char.isDigit = (ids, r) := by
  rw [List.span_eq_take_drop, takeWhile_append_all ids r hi,
    dropWhile_append_all ids r hi, hr]
  have : r.dropWhile Char.isDigit = r := by
    cases r with
    | nil => rfl
    | cons c cs =>
      rw [List.takeWhile_cons] at hr
      split at hr
      · simp at hr
      · next hc => rw [List.dropWhile_cons_of_neg hc]
  rw [this, List.append_nil]

theorem jsParseFloatCore_digits_dot (sgn : ℚ) (ids fds : List Char)
    (hi : ∀ c ∈ ids, c.isDigit = true) (hf : ∀ c ∈ fds, c.isDigit = true)
    (hne : ids ≠ []) :
    jsParseFloatCore sgn (ids ++ '.' :: fds) =
      some (sgn * ((digitsVal ids : ℚ) + (digitsVal fds : ℚ) / 10 ^ fds.length)) := by
  unfold jsParseFloatCore
  have hspan : (ids ++ '.' :: fds).span Char.isDigit = (ids, '.' :: fds) :=
    span_digits_append ids _ hi (by simp [List.takeWhile_cons])
  rw [hspan]
  dsimp only
  have hfrac : readFrac ('.' :: fds) = (fds, []) := by
    show (if '.' = '.' then fds.span Char.isDigit else ([], '.' :: fds)) = (fds, [])
    rw [if_pos rfl, List.span_eq_take_drop,
      List.takeWhile_eq_self_iff.mpr hf, List.dropWhile_eq_nil_iff.mpr (fun c hc => hf c hc)]
  rw [hfrac]
  rw [if_neg (by simp [hne])]
  simp only [readExp]
  rw [qMul_eq, qMul_eq, qAdd_eq, qDiv_eq, qPowN_eq, qPowZ_eq]
  norm_num

theorem jsParseFloatCore_digits (sgn : ℚ) (ids : List Char)
    (hi : ∀ c ∈ ids, c.isDigit = true) (hne : ids ≠ []) :
    jsParseFloatCore sgn ids = some (sgn * (digitsVal ids : ℚ)) := by
  unfold jsParseFloatCore
  have hspan : ids.span Char.isDigit = (ids, []) := by
    have := span_digits_append ids [] hi (by simp)
    simpa using this
  rw [hspan]
  dsimp only
  have hfrac : readFrac [] = ([], []) := rfl
  rw [hfrac]
  rw [if_neg (by simp [hne])]
  simp only [readExp]
  rw [qMul_eq, qMul_eq, qAdd_eq, qDiv_eq, qPowN_eq, qPowZ_eq]
  norm_num [digitsVal]

theorem digit_not_ws (c : Char) (h : c.isDigit = true) : jsIsWS c = false := by
  unfold jsIsWS
  simp only [decide_eq_false_iff_not]
  rintro (rfl | rfl | rfl | rfl | rfl | rfl) <;> simp [Char.isDigit] at h

theorem digit_not_minus (c : Char) (h : c.isDigit = true) : c ≠ '-' := by
  rintro rfl; simp [Char.isDigit] at h

theorem digit_not_plus (c : Char) (h : c.isDigit = true) : c ≠ '+' := by
  rintro rfl; simp [Char.isDigit] at h

theorem natDigits_ne_nil (n : Nat) : natDigits n ≠ [] := by
  unfold natDigits natDigitsLE natDigitsLEFuel
  simp

theorem jsParseFloat_unsigned (l : List Char) (c : Char) (t : List Char)
    (hl : l = c :: t) (hc : c.isDigit = true) :
    jsParseFloat ⟨l⟩ = jsParseFloatCore 1 l := by
  unfold jsParseFloat
  subst hl
  have hdrop : (String.mk (c :: t)).data.dropWhile jsIsWS = c :: t :=
    List.dropWhile_cons_of_neg (by simp [digit_not_ws c hc])
  rw [hdrop]
  have hs : readSign (c :: t) = (1, c :: t) := by
    rw [readSign.eq_def]
    dsimp only
    rw [if_neg (digit_not_minus c hc), if_neg (digit_not_plus c hc)]
  dsimp only
  rw [hs]

theorem jsParseFloat_plus (l : List Char) :
    jsParseFloat ⟨'+' :: l⟩ = jsParseFloatCore 1 l := by
  unfold jsParseFloat
  have hdrop : (String.mk ('+' :: l)).data.dropWhile jsIsWS = '+' :: l :=
    List.dropWhile_cons_of_neg (by decide)
  rw [hdrop]
  have hs : readSign ('+' :: l) = (1, l) := by
    rw [readSign.eq_def]
    dsimp only
    rw [if_neg (by decide), if_pos rfl]
  dsimp only
  rw [hs]

theorem jsParseFloat_minus (l : List Char) :
    jsParseFloat ⟨'-' :: l⟩ = jsParseFloatCore (-1) l := by
  unfold jsParseFloat
  have hdrop : (String.mk ('-' :: l)).data.dropWhile jsIsWS = '-' :: l :=
    List.dropWhile_cons_of_neg (by decide)
  rw [hdrop]
  have hs : readSign ('-' :: l) = (-1, l) := by
    rw [readSign.eq_def]
    dsimp only
    rw [if_pos rfl]
  dsimp only
  rw [hs]

theorem qFloor_eq_int_floor (q : ℚ) : qFloor q = ⌊q⌋ := by
  rw [qFloor, Rat.floor_def', ← Rat.floor_def]

theorem qFloor_nat_add_half (M : ℕ) : qFloor ((M : ℚ) + 1/2) = (M : ℤ) := by
  rw [qFloor_eq_int_floor]
  have : ((M : ℚ) + 1/2) = ((M : ℤ) : ℚ) + 1/2 := by push_cast; ring
  rw [this, Int.floor_int_add]
  norm_num

theorem jsToFixed_two_of_cent (q : ℚ) (M : ℕ) (hM : qAbs q * 100 = (M : ℚ)) :
    jsToFixed 2 q = (if q < 0 then "-" else "") ++
      natStr (M / 100) ++ "." ++ ⟨padZeros 2 (natDigits (M % 100))⟩ := by
  unfold jsToFixed
  have h1 : qAdd (qMul (qAbs q) (qPowN 10 2)) (mkRat 1 2) = (M : ℚ) + 1/2 := by
    rw [qAdd_eq, qMul_eq, qPowN_eq]
    rw [show ((10 : ℚ) ^ 2) = 100 by norm_num, hM]
    congr 1
    rw [Rat.mkRat_eq_div]
    norm_num
  rw [h1, qFloor_nat_add_half]
  simp only [Int.toNat_natCast]
  rw [if_neg (by omega : ¬(2 = 0))]
  norm_num
  simp [String.append_assoc]

theorem core_value_cent (sgn : ℚ) (M : ℕ) :
    jsParseFloatCore sgn
        (natDigits (M / 100) ++ '.' :: padZeros 2 (natDigits (M % 100))) =
      some (sgn * ((M : ℚ) / 100)) := by
  rw [jsParseFloatCore_digits_dot sgn _ _ (natDigits_digits _)
    (padZeros_digits _ _ (natDigits_digits _)) (natDigits_ne_nil _)]
  congr 1
  rw [digitsVal_natDigits, digitsVal_padZeros, digitsVal_natDigits,
    padZeros_length 2 _ (natDigits_length _ 2
      (by have := Nat.mod_lt M (show 0 < 100 by omega); norm_num; omega)
      (by omega))]
  have hM : (M / 100 : ℕ) * 100 + (M % 100 : ℕ) = M := by
    have := Nat.div_add_mod M 100
    omega
  have hMq : ((M : ℚ)) = ((M / 100 : ℕ) : ℚ) * 100 + ((M % 100 : ℕ) : ℚ) := by
    exact_mod_cast hM.symm
  rw [hMq]
  norm_num
  ring_nf
  simp

theorem cent_exists (x : ℚ) (hden : (qMul x 100).den = 1) (hx : 0 ≤ x) :
    ∃ M : ℕ, x * 100 = (M : ℚ) := by
  rw [qMul_eq] at hden
  have hnum : (0 : ℤ) ≤ (x * 100).num := Rat.num_nonneg.mpr (by positivity)
  refine ⟨(x * 100).num.toNat, ?_⟩
  have h1 : ((x * 100).num : ℚ) = x * 100 := by
    rw [← Rat.den_eq_one_iff]
    exact hden
  rw [← h1]
  exact_mod_cast (Int.toNat_of_nonneg hnum).symm

theorem str_plus_cons (s : String) : "+" ++ s = String.mk ('+' :: s.data) := by
  cases s with
  | mk d => rfl

theorem str_minus_cons (s : String) : "-" ++ s = String.mk ('-' :: s.data) := by
  cases s with
  | mk d => rfl

theorem fixed_body_data (M : ℕ) :
    (natStr (M / 100) ++ "." ++ ⟨padZeros 2 (natDigits (M % 100))⟩ : String).data =
      natDigits (M / 100) ++ '.' :: padZeros 2 (natDigits (M % 100)) := by
  simp [String.data_append, natStr]

theorem parse_delta_render (d : ℚ) (h100 : (qMul d 100).den = 1) :
    jsParseFloat ((if d ≥ 0 then "+" else "") ++ jsToFixed 2 d) = some d := by
  have habs100 : (qMul (qAbs d) 100).den = 1 := by
    rw [qMul_eq] at h100 ⊢
    rw [qAbs_eq]
    rcases abs_choice d with h | h
    · rw [h]; exact h100
    · rw [h, show (-d) * 100 = -(d * 100) by ring]
      rw [Rat.neg_den]
      exact h100
  rcases cent_exists (qAbs d) habs100 (by rw [qAbs_eq]; positivity) with ⟨M, hM⟩
  have hfix := jsToFixed_two_of_cent d M hM
  by_cases hd : d ≥ 0
  · rw [if_pos hd, hfix, if_neg (by linarith)]
    have hplus : ("+" ++ ("" ++ natStr (M / 100) ++ "." ++
        ⟨padZeros 2 (natDigits (M % 100))⟩) : String) =
        String.mk ('+' :: (natStr (M / 100) ++ "." ++
          ⟨padZeros 2 (natDigits (M % 100))⟩ : String).data) := by
      rw [str_plus_cons]
      congr 1
      all_goals simp
    rw [hplus, jsParseFloat_plus, fixed_body_data, core_value_cent]
    congr 1
    have habs : qAbs d = d := by rw [qAbs_eq]; exact abs_of_nonneg hd
    rw [habs] at hM
    have : d = (M : ℚ) / 100 := by
      field_simp at hM ⊢
      linarith
    rw [this]
    ring
  · rw [if_neg hd, hfix, if_pos (by linarith)]
    have hminus : ("" ++ ("-" ++ natStr (M / 100) ++ "." ++
        ⟨padZeros 2 (natDigits (M % 100))⟩) : String) =
        String.mk ('-' :: (natStr (M / 100) ++ "." ++
          ⟨padZeros 2 (natDigits (M % 100))⟩ : String).data) := by
      have h1 : ("" ++ ("-" ++ natStr (M / 100) ++ "." ++
          ⟨padZeros 2 (natDigits (M % 100))⟩) : String) =
          ("-" ++ (natStr (M / 100) ++ "." ++
            ⟨padZeros 2 (natDigits (M % 100))⟩) : String) := by
        simp [String.append_assoc]
      rw [h1, str_minus_cons]
    rw [hminus, jsParseFloat_minus, fixed_body_data, core_value_cent]
    congr 1
    have habs : qAbs d = -d := by
      rw [qAbs_eq]
      exact abs_of_neg (by linarith)
    rw [habs] at hM
    have : d = -((M : ℚ) / 100) := by
      field_simp at hM ⊢
      linarith
    rw [this]
    ring

theorem jsParseFloat_sign_body (v : ℚ) (body : String)
    (hhead : ∃ c t, body.data = c :: t ∧ c.isDigit = true)
    (hval : ∀ sgn : ℚ, jsParseFloatCore sgn body.data = some (sgn * qAbs v)) :
    jsParseFloat ((if v < 0 then "-" else "") ++ body) = some v := by
  by_cases hv : v < 0
  · rw [if_pos hv, str_minus_cons body, jsParseFloat_minus, hval (-1)]
    congr 1
    rw [qAbs_eq, abs_of_neg hv]; ring
  · rw [if_neg hv]
    obtain ⟨c, t, hct, hcd⟩ := hhead
    have hb : (("" ++ body : String)) = String.mk body.data := by
      cases body with
      | mk d => rfl
    rw [hb, jsParseFloat_unsigned body.data c t hct hcd, hval 1]
    congr 1
    rw [qAbs_eq, abs_of_nonneg (by linarith)]; ring

theorem core_value_take_drop (sgn : ℚ) (ds : List Char) (s : Nat)
    (hd : ∀ c ∈ ds, c.isDigit = true) (hlen : s + 1 ≤ ds.length) :
    jsParseFloatCore sgn (ds.take (ds.length - s) ++ '.' :: ds.drop (ds.length - s)) =
      some (sgn * ((digitsVal ds : ℚ) / 10 ^ s)) := by
  have htake : ∀ c ∈ ds.take (ds.length - s), c.isDigit = true :=
    fun c hc => hd c ((List.take_sublist _ _).subset hc)
  have hdrop : ∀ c ∈ ds.drop (ds.length - s), c.isDigit = true :=
    fun c hc => hd c ((List.drop_sublist _ _).subset hc)
  have hne : ds.take (ds.length - s) ≠ [] := by
    apply List.ne_nil_of_length_pos
    rw [List.length_take]
    omega
  rw [jsParseFloatCore_digits_dot sgn _ _ htake hdrop hne]
  have hdlen : (ds.drop (ds.length - s)).length = s := by
    rw [List.length_drop]
    omega
  have hsplit : digitsVal ds =
      digitsVal (ds.take (ds.length - s)) * 10 ^ s +
        digitsVal (ds.drop (ds.length - s)) := by
    conv_lhs => rw [← List.take_append_drop (ds.length - s) ds]
    rw [digitsVal_append, hdlen]
  congr 1
  rw [hdlen, hsplit]
  have h10 : ((10 : ℚ)) ^ s ≠ 0 := by positivity
  field_simp
  try push_cast
  try ring

theorem den_one_eq_num (x : ℚ) (h : x.den = 1) : x = (x.num : ℚ) :=
  (Rat.coe_int_num_of_den_eq_one h).symm

theorem parse_numToString (v : ℚ) (h100 : (qMul v 100).den = 1) :
    jsParseFloat (numToString v) = some v := by
  have habs100 : (qMul (qAbs v) 100).den = 1 := by
    rw [qMul_eq] at h100 ⊢
    rw [qAbs_eq]
    rcases abs_choice v with h | h
    · rw [h]; exact h100
    · rw [h, show (-v) * 100 = -(v * 100) by ring, Rat.neg_den]
      exact h100
  have hp2 : (qMul (qAbs v) (qPowN 10 2)).den = 1 := by
    have : qMul (qAbs v) (qPowN 10 2) = qMul (qAbs v) 100 := by
      rw [qMul_eq, qMul_eq, qPowN_eq]
      norm_num
    rw [this]
    exact habs100
  have hfind : (findScale (qAbs v)).isSome := by
    rw [findScale, List.find?_isSome]
    exact ⟨2, by simp [List.mem_range], by simpa using hp2⟩
  obtain ⟨s, hs⟩ := Option.isSome_iff_exists.mp hfind
  have hps : (qMul (qAbs v) (qPowN 10 s)).den = 1 := by
    have := List.find?_some hs
    simpa using this
  have hnn : (0 : ℚ) ≤ qMul (qAbs v) (qPowN 10 s) := by
    rw [qMul_eq, qPowN_eq, qAbs_eq]
    positivity
  set n := (qMul (qAbs v) (qPowN 10 s)).num.toNat with hn
  have habsn : qAbs v * 10 ^ s = (n : ℚ) := by
    have h1 : qMul (qAbs v) (qPowN 10 s) = ((qMul (qAbs v) (qPowN 10 s)).num : ℚ) :=
      den_one_eq_num _ hps
    have h2 : (0 : ℤ) ≤ (qMul (qAbs v) (qPowN 10 s)).num :=
      Rat.num_nonneg.mpr hnn
    have hzn : ((n : ℤ)) = (qMul (qAbs v) (qPowN 10 s)).num := by
      rw [hn]
      exact Int.toNat_of_nonneg h2
    have h3 : qAbs v * 10 ^ s = ((qMul (qAbs v) (qPowN 10 s)).num : ℚ) := by
      rw [← qPowN_eq 10 s, ← qMul_eq]
      exact h1
    rw [h3, ← hzn]
    push_cast
    ring
  unfold numToString
  rw [hs]
  dsimp only
  by_cases hs0 : s = 0
  · subst hs0
    rw [if_pos rfl]
    have hval : ∀ sgn : ℚ, jsParseFloatCore sgn (natStr n).data = some (sgn * qAbs v) := by
      intro sgn
      rw [show (natStr n).data = natDigits n from rfl]
      rw [jsParseFloatCore_digits sgn _ (natDigits_digits n) (natDigits_ne_nil n)]
      rw [digitsVal_natDigits]
      congr 1
      have : qAbs v = (n : ℚ) := by
        rw [← habsn]
        norm_num
      rw [this]
    apply jsParseFloat_sign_body v (natStr n) ?_ hval
    · cases hnd : natDigits n with
      | nil => exact absurd hnd (natDigits_ne_nil n)
      | cons c t =>
        exact ⟨c, t, by rw [show (natStr n).data = natDigits n from rfl, hnd],
          natDigits_digits n c (hnd ▸ List.mem_cons_self c t)⟩
  · rw [if_neg hs0]
    set ds := padZeros (s + 1) (natDigits n) with hds
    have hdall : ∀ c ∈ ds, c.isDigit = true :=
      padZeros_digits _ _ (natDigits_digits n)
    have hlen : s + 1 ≤ ds.length := by
      rw [hds]
      unfold padZeros
      simp only [List.length_append, List.length_replicate]
      omega
    have hdata : ((⟨ds.take (ds.length - s)⟩ : String) ++ "." ++
        (⟨ds.drop (ds.length - s)⟩ : String)).data =
        ds.take (ds.length - s) ++ '.' :: ds.drop (ds.length - s) := by
      simp [String.data_append]
    have hval : ∀ sgn : ℚ,
        jsParseFloatCore sgn ((⟨ds.take (ds.length - s)⟩ : String) ++ "." ++
          (⟨ds.drop (ds.length - s)⟩ : String)).data = some (sgn * qAbs v) := by
      intro sgn
      rw [hdata, core_value_take_drop sgn ds s hdall hlen]
      congr 1
      have hdv : digitsVal ds = n := by
        rw [hds, digitsVal_padZeros, digitsVal_natDigits]
      rw [hdv]
      have h10 : ((10 : ℚ)) ^ s ≠ 0 := by positivity
      have : qAbs v = (n : ℚ) / 10 ^ s := by
        field_simp
        linarith [habsn]
      rw [this]
    apply jsParseFloat_sign_body v _ ?_ hval
    · cases htk : ds.take (ds.length - s) with
      | nil =>
        exfalso
        have : (ds.take (ds.length - s)).length = 0 := by rw [htk]; rfl
        rw [List.length_take] at this
        omega
      | cons c t =>
        refine ⟨c, t ++ '.' :: ds.drop (ds.length - s), ?_, ?_⟩
        · simp [String.data_append]
        · exact hdall c ((List.take_sublist _ _).subset
            (htk ▸ List.mem_cons_self c t))

theorem den_100_sub (a b : ℚ) (ha : (qMul a 100).den = 1) (hb : (qMul b 100).den = 1) :
    (qMul (qSub a b) 100).den = 1 := by
  rw [qMul_eq] at ha hb
  rw [qMul_eq, qSub_eq]
  have hma : (a * 100) = ((a * 100).num : ℚ) := (Rat.coe_int_num_of_den_eq_one ha).symm
  have hmb : (b * 100) = ((b * 100).num : ℚ) := (Rat.coe_int_num_of_den_eq_one hb).symm
  have hrw : (a - b) * 100 = (((a * 100).num - (b * 100).num : ℤ) : ℚ) := by
    push_cast
    rw [← hma, ← hmb]
    ring
  rw [hrw, Rat.den_intCast]

theorem deltaEncodeLine_single_zero (dataLines : List String) (line : String)
    (hline : jsSplit ',' line = [line]) :
    deltaEncodeLine dataLines [0] 0 line =
      numToString ((jsParseFloat line).getD 0) := by
  unfold deltaEncodeLine
  rw [hline]
  simp only [List.foldl_cons, List.foldl_nil, if_pos rfl]
  simp [listSet, joinSep]

theorem deltaEncodeLine_single_pos (dataLines : List String) (j : Nat) (a prev : String)
    (ha : jsSplit ',' a = [a]) (hprev : dataLines.get? j = some prev)
    (hprevsplit : jsSplit ',' prev = [prev]) :
    deltaEncodeLine dataLines [0] (j + 1) a =
      (if qSub ((jsParseFloat a).getD 0) ((jsParseFloat prev).getD 0) ≥ 0 then "+" else "")
        ++ jsToFixed 2 (qSub ((jsParseFloat a).getD 0) ((jsParseFloat prev).getD 0)) := by
  unfold deltaEncodeLine
  rw [ha]
  simp only [List.foldl_cons, List.foldl_nil, Nat.add_sub_cancel, hprev, Option.getD_some,
    if_neg (Nat.succ_ne_zero j), hprevsplit]
  simp [listSet, joinSep]

theorem enumFrom_map_delta (dataLines : List String)
    (hsplit : ∀ l ∈ dataLines, jsSplit ',' l = [l]) :
    ∀ (rest : List String) (j : Nat) (prev : String),
      dataLines.get? j = some prev →
      dataLines.drop (j + 1) = rest →
      (rest.enumFrom (j + 1)).map (fun p => deltaEncodeLine dataLines [0] p.1 p.2) =
        List.zipWith (fun a b =>
          (if qSub ((jsParseFloat a).getD 0) ((jsParseFloat b).getD 0) ≥ 0 then "+" else "")
            ++ jsToFixed 2 (qSub ((jsParseFloat a).getD 0) ((jsParseFloat b).getD 0)))
          rest (prev :: rest) := by
  intro rest
  induction rest with
  | nil => intro j prev _ _; rfl
  | cons a as ih =>
    intro j prev hprev hdrop
    have hmem : a ∈ dataLines := by
      have h1 : a ∈ dataLines.drop (j + 1) := by
        rw [hdrop]; exact List.mem_cons_self a as
      exact List.mem_of_mem_drop h1
    have hprevmem : prev ∈ dataLines := List.get?_mem hprev
    show deltaEncodeLine dataLines [0] (j + 1) a :: _ = _ :: _
    rw [deltaEncodeLine_single_pos dataLines j a prev (hsplit a hmem) hprev
      (hsplit prev hprevmem)]
    congr 1
    have hget : dataLines.get? (j + 1) = some a := by
      have h2 := congrArg (fun l => l.get? 0) hdrop
      simp only [List.get?_drop, Nat.add_zero] at h2
      simpa using h2
    have hdrop2 : dataLines.drop (j + 2) = as := by
      have h3 : (dataLines.drop (j + 1)).drop 1 = as := by
        rw [hdrop]
        rfl
      rw [List.drop_drop] at h3
      convert h3 using 2
    exact ih (j + 1) a hget hdrop2

theorem zipWith_render_parse (xs ys : List String)
    (hx : ∀ a ∈ xs, (qMul ((jsParseFloat a).getD 0) 100).den = 1)
    (hy : ∀ b ∈ ys, (qMul ((jsParseFloat b).getD 0) 100).den = 1) :
    (List.zipWith (fun a b =>
        (if qSub ((jsParseFloat a).getD 0) ((jsParseFloat b).getD 0) ≥ 0 then "+" else "")
          ++ jsToFixed 2 (qSub ((jsParseFloat a).getD 0) ((jsParseFloat b).getD 0)))
       xs ys).map (fun d => (jsParseFloat d).getD 0) =
      List.zipWith (fun a b => qSub ((jsParseFloat a).getD 0) ((jsParseFloat b).getD 0))
        xs ys := by
  induction xs generalizing ys with
  | nil => simp
  | cons a as ih =>
    cases ys with
    | nil => simp
    | cons b bs =>
      simp only [List.zipWith_cons_cons, List.map_cons]
      congr 1
      · rw [parse_delta_render _ (den_100_sub _ _ (hx a (List.mem_cons_self a as))
          (hy b (List.mem_cons_self b bs)))]
        rfl
      · exact ih bs (fun x hx' => hx x (List.mem_cons_of_mem _ hx'))
          (fun y hy' => hy y (List.mem_cons_of_mem _ hy'))

theorem deltaReconstruct_zip (p : String → ℚ) :
    ∀ (rest : List String) (b : String),
      deltaReconstruct (p b)
        (List.zipWith (fun a c => qSub (p a) (p c)) rest (b :: rest)) =
        p b :: rest.map p := by
  intro rest
  induction rest with
  | nil => intro b; rfl
  | cons a as ih =>
    intro b
    simp only [List.zipWith_cons_cons]
    rw [deltaReconstruct]
    have hstep : qAdd (p b) (qSub (p a) (p b)) = p a := by
      rw [qAdd_eq, qSub_eq]; ring
    rw [hstep, ih a]
    simp [List.map_cons]

/-! ## Claim theorems -/

/-- C1: the spec requires every reversible `shorten_keys` (JSON) /
`dictionary_encoding` (CSV) operation to carry a complete code mapping, but
both engines log these operations with *no* `mapping` field at all: the CSV
moderate run replaces the `country` values by dictionary codes `0`/`1`/`2`
and the JSON moderate run replaces both keys by codes `0`/`1`, each logging
a `reversible := true` operation whose mapping is absent (`none`). -/
theorem C1_mapping_unrecorded :
    ((compressCSV "id,country\n1,USA\n2,USA\n3,Canada\n4,Mexico\n5,USA" "moderate"
        {}).toOption.map (fun r =>
          (r.compressed,
           (r.operations.filter (fun op => op.type = "dictionary_encoding")).map
             (fun op => (op.reversible, op.mapping)))) =
      some ("id(Δ),country(D)\n1,2\n+1.00,2\n+1.00,0\n+1.00,1\n+1.00,2",
            [(true, none)])) ∧
    ((compressJSONValue (JValue.obj [("alpha", JValue.num 1), ("beta", JValue.num 2)])
        "moderate" {}).toOption.map (fun r =>
          (r.compressed,
           (r.operations.filter (fun op => op.type = "shorten_keys")).map
             (fun op => (op.reversible, op.mapping)))) =
      some ("\x7b\"0\":1,\"1\":2\x7d", [(true, none)])) := by decide

/-- C2 counterexample: at the aggressive CSV tier with
`removeNonEssentialColumns` enabled and `essentialColumnIndices := [0]` on a
one-column file, the content is returned byte-for-byte unchanged yet the log
contains a `remove_non_essential_columns` operation (with `removed := 0`):
an operation was appended speculatively with zero before/after change. -/
theorem C2_zero_change_op :
    (compressCSV "a\n1\n2" "aggressive"
        { removeEmptyRows := some false, deduplicateRows := some false,
          roundNumbers := some false, deltaEncoding := some false,
          dictionaryEncoding := some false, removeLowVarianceColumns := some false,
          truncateText := some false, removeNonEssentialColumns := some true,
          essentialColumnIndices := some [0] }).toOption.map
      (fun r => (r.compressed, r.operations)) =
    some ("a\n1\n2",
          [{ type := "remove_non_essential_columns", removed := some 0,
             kept := some 1, reversible := false, impact := "high" }]) := by decide

/-- C3 counterexample: a column of values `0, 1, 1.004, 1.008, 1.012, 1.016`
passes the variance test (the first step exceeds `0.01`), but every later
delta rounds to `+0.00`, so cumulative reconstruction ends at `1` while the
original final value is `1.016` — an error of `0.016`, outside the claimed
2-decimal rounding tolerance. -/
theorem C3_reconstruction_drift :
    (applyDeltaEncoding "v" ["0", "1", "1.004", "1.008", "1.012", "1.016"]).dataLines =
      ["0", "+1.00", "+0.00", "+0.00", "+0.00", "+0.00"] ∧
    qAbs (qSub
      ((reconstructColumn
          ((applyDeltaEncoding "v"
            ["0", "1", "1.004", "1.008", "1.012", "1.016"]).dataLines)).getLastD 0)
      ((["0", "1", "1.004", "1.008", "1.012", "1.016"].map
          (fun l => (jsParseFloat l).getD 0)).getLastD 0)) > mkRat 1 100 := by decide

/-- C5: end-to-end scenario 2 — moderate compression of
`id,country` / `1,USA … 5,USA` delta-encodes the `id` column (header
`id(Δ)`, values `1, +1.00, +1.00, +1.00, +1.00`) and dictionary-encodes the
`country` column (header `country(D)`) with codes assigned in alphabetical
order (`Canada → 0`, `Mexico → 1`, `USA → 2`). -/
theorem C5_scenario_moderate :
    (compressCSV "id,country\n1,USA\n2,USA\n3,Canada\n4,Mexico\n5,USA" "moderate"
        {}).toOption.map CompressionResult.compressed =
      some "id(Δ),country(D)\n1,2\n+1.00,2\n+1.00,0\n+1.00,1\n+1.00,2" ∧
    dictSorted ["1,USA", "+1.00,USA", "+1.00,Canada", "+1.00,Mexico", "+1.00,USA"] 1 =
      ["Canada", "Mexico", "USA"] := by decide

/-- C6 counterexample: the in-alphabet codes behave as claimed
(rank 0 → `"0"`, rank 61 → `"Z"`), but the overflow counter starts at the
alphabet's first character, not at `"a"`: rank 62 → `"|0"` and
rank 63 → `"|1"`, contradicting the spec's `"|a"` / `"|b"`. -/
theorem C6_overflow_code :
    generateShortKey 0 = "0" ∧ generateShortKey 61 = "Z" ∧
    generateShortKey 62 = "|0" ∧ generateShortKey 63 = "|1" ∧
    generateShortKey 62 ≠ "|a" ∧ generateShortKey 63 ≠ "|b" := by decide

/-- C7: the preview engine mixes units — `originalSize` is the UTF-8 byte
length but the compressed size it subtracts is the engine's
character count.  On the one-character file `"é"` (2 bytes, 1 character) the
CSV run returns the content unchanged, yet the minimal tier reports a 50%
reduction instead of 0%. -/
theorem C7_multibyte_reduction :
    (analyzeFile compressCSV "é" ({} : CSVOptions)).results.minimal =
      { size := 1, reduction := 50, operations := [], compressed := some "é" } ∧
    (analyzeFile compressCSV "é" ({} : CSVOptions)).originalSize = 2 ∧
    blobSize "é" = 2 ∧ jsLength "é" = 1 := by decide

/-- C8 counterexample: with an *empty* options map, the aggressive SQL tier
still removes the `CREATE TABLE` statement and the `BEGIN`/`COMMIT`
transaction statements (logging `remove_schema_changes` and
`remove_transactions`): these two rewrites are enabled by default
(`!== false`), not opt-in as claimed. -/
theorem C8_default_schema_removal :
    (compressSQL "BEGIN; CREATE TABLE t (a INT); INSERT INTO t VALUES (1); COMMIT;"
        "aggressive" ({} : SQLOptions)).toOption.map
      (fun r => (r.compressed, r.operations.map Operation.type)) =
    some ("insert INTO t VALUES(1);",
          ["remove_whitespace", "remove_schema_changes", "remove_transactions"]) := by decide

/-- C10 counterexample: blank lines of the *input* are indeed dropped before
any processing, but the claim that the compressed output never contains a
blank line is false: moderate compression of `a,b\n1,2` removes both
low-variance columns, turning the single data row into an empty line
(`"a,b\n"`). -/
theorem C10_blank_output :
    (compressCSV "a,b\n1,2" "moderate" ({} : CSVOptions)).toOption.map
        CompressionResult.compressed = some "a,b\n" ∧
    (jsSplit '\n' "a,b\n").any (fun l => jsTrim l = "") = true := by decide


/-- C2 amended theorem: at the minimal and moderate CSV tiers every logged
operation records a real change — no operation in the log carries a zero
`count` or zero `columns` field (the aggressive tier violates this, see the
counterexample). -/
theorem C2_moderate_ops_nonzero :
    ∀ (header : String) (dl : List String) (opts : CSVOptions),
    ∀ op ∈ (applyModerateCSVCompression header dl [] opts).operations,
      op.count ≠ some 0 ∧ op.columns ≠ some 0 := by
  intro header dl opts
  have h0 : ∀ op ∈ ([] : List Operation), opNonZero op := by simp
  exact csvTruncStage_nonzero _ _ (csvLowVarStage_nonzero _ _
    (csvDictStage_nonzero _ _ (csvDeltaStage_nonzero _ _
      (csvRoundStage_nonzero _ _ (csvDedupStage_nonzero _ _
        (minimal_stage_nonzero header dl [] opts h0))))))

/-- C2 witness: the `round_numbers` operation logged for `a` / `1`, `2`
indeed has non-zero recorded counts. -/
theorem C2_moderate_ops_nonzero_witness :
    ({ type := "round_numbers", decimals := some 2, count := some 2,
       reversible := false, impact := "medium" } : Operation).count ≠ some 0 ∧
    ({ type := "round_numbers", decimals := some 2, count := some 2,
       reversible := false, impact := "medium" } : Operation).columns ≠ some 0 :=
  C2_moderate_ops_nonzero "a" ["1", "2"] {}
    { type := "round_numbers", decimals := some 2, count := some 2,
      reversible := false, impact := "medium" } (by decide)

/-- C4: the preview recommendation is computed top-down with first match
winning — aggressive when its reduction exceeds 50 and is effective
(> 5), else moderate when its reduction exceeds 30 and is effective, else
minimal when effective, else moderate by default; and when no tier's
reduction exceeds 10 the reason string is exactly
"Limited compression opportunity for this file". -/
theorem C4_recommendation_policy {α : Type}
    (engine : String → String → α → Except String CompressionResult)
    (content : String) (opts : α) :
    (analyzeFile engine content opts).recommendation.level =
      (if (analyzeFile engine content opts).results.aggressive.reduction > 50 ∧
          (analyzeFile engine content opts).results.aggressive.reduction > 5 then "aggressive"
       else if (analyzeFile engine content opts).results.moderate.reduction > 30 ∧
          (analyzeFile engine content opts).results.moderate.reduction > 5 then "moderate"
       else if (analyzeFile engine content opts).results.minimal.reduction > 5 then "minimal"
       else "moderate") ∧
    ((analyzeFile engine content opts).results.minimal.reduction ≤ 10 →
     (analyzeFile engine content opts).results.moderate.reduction ≤ 10 →
     (analyzeFile engine content opts).results.aggressive.reduction ≤ 10 →
     (analyzeFile engine content opts).recommendation.reason =
       "Limited compression opportunity for this file") := by
  constructor
  · rfl
  · intro h1 h2 h3
    exact getRecommendationReason_limited _ _ h1 h2 h3

/-- C6 amended theorem: the short-key generator is injective with the
decodable rank semantics actually implemented — a bare alphabet character
for ranks below 62, and a `"|"`-prefixed little-endian base-62 counter of
`rank − 62` (starting at the alphabet's first character `"0"`) for the
rest; decoding always recovers the rank. -/
theorem C6_shortkey_decode : ∀ i : Nat, decodeShortKey (generateShortKey i) = i := by
  intro i
  by_cases h : i < 62
  · revert h
    exact (by decide : ∀ i, i < 62 → decodeShortKey (generateShortKey i) = i) i
  · have hd : (generateShortKey i).data = '|' :: shortKeyDigits (i - 62) := by
      simp [generateShortKey, h, String.data_append]
    have hm : decodeShortKey (generateShortKey i) =
        62 + decodeBase62LE (shortKeyDigits (i - 62)) := by
      simp only [decodeShortKey, hd, if_pos]
    rw [hm, shortKeyDigits,
      decodeBase62LE_shortKeyDigitsFuel (i - 62 + 1) (i - 62) (by omega)]
    omega

/-- C8 amended theorem: the schema-change and transaction removals of the
aggressive SQL tier are opt-out — when the caller explicitly disables both
(`removeSchemaChanges = false`, `removeTransactions = false`), no
`remove_schema_changes` or `remove_transactions` operation is ever
logged. -/
theorem C8_optout_disable : ∀ (sql : String) (opts : SQLOptions),
    opts.removeSchemaChanges = some false →
    opts.removeTransactions = some false →
    ∀ op ∈ (applyAggressiveSQLCompression sql [] opts).2,
      op.type ≠ "remove_schema_changes" ∧ op.type ≠ "remove_transactions" := by
  intro sql opts h1 h2
  have h0 : ∀ op ∈ ([] : List Operation), schemaSafeOp op := by simp
  unfold applyAggressiveSQLCompression applyModerateSQLCompression
    applyMinimalSQLCompression
  rw [sqlSchemaStage_disabled opts _ h1, sqlTransactionsStage_disabled opts _ h2]
  exact sqlSampleStage_schemaSafe _ _ (sqlConstraintsStage_schemaSafe _ _
    (sqlKeepDataStage_schemaSafe _ _ (sqlCombineStage_schemaSafe _ _
      (sqlOptKeywordsStage_schemaSafe _ _ (sqlAliasStage_schemaSafe _ _
        (sqlExplainStage_schemaSafe _ _ (sqlLowercaseStage_schemaSafe _
          (sqlWhitespaceStage_schemaSafe _
            (sqlCommentsStage_schemaSafe _ _ h0)))))))))

/-- C8 witness: with both removals disabled on a `CREATE TABLE` script, the
only logged operation is whitespace removal, and the theorem applies to
it. -/
theorem C8_optout_disable_witness :
    ({ type := "remove_whitespace", count := some 1, reversible := false,
       impact := "low" } : Operation).type ≠ "remove_schema_changes" ∧
    ({ type := "remove_whitespace", count := some 1, reversible := false,
       impact := "low" } : Operation).type ≠ "remove_transactions" :=
  C8_optout_disable "CREATE TABLE t (a INT);"
    { removeSchemaChanges := some false, removeTransactions := some false }
    (by rfl) (by rfl)
    { type := "remove_whitespace", count := some 1, reversible := false,
      impact := "low" } (by decide)

/-- C9: per-tier failures inside the preview engine are isolated: each
tier's row of the preview result is determined by that tier's engine run
alone, whichever tier fails — a tier whose engine run raises an error
reports byte size `originalSize`, reduction `0`, an empty operation list
and the error message, and a tier whose engine run succeeds reports its
normally computed row; one tier's failure never aborts the analysis. -/
theorem C9_tier_isolation {α : Type}
    (engine : String → String → α → Except String CompressionResult)
    (content : String) (opts : α) :
    (∀ e, engine content "minimal" opts = Except.error e →
       (analyzeFile engine content opts).results.minimal =
         { size := blobSize content, reduction := 0, operations := [],
           error := some e }) ∧
    (∀ r, engine content "minimal" opts = Except.ok r →
       (analyzeFile engine content opts).results.minimal =
         { size := r.compressedSize,
           reduction := qMul (qDiv (qSub ((blobSize content : Nat) : ℚ)
             ((r.compressedSize : Nat) : ℚ)) ((blobSize content : Nat) : ℚ)) 100,
           operations := r.operations, compressed := some r.compressed }) ∧
    (∀ e, engine content "moderate" opts = Except.error e →
       (analyzeFile engine content opts).results.moderate =
         { size := blobSize content, reduction := 0, operations := [],
           error := some e }) ∧
    (∀ r, engine content "moderate" opts = Except.ok r →
       (analyzeFile engine content opts).results.moderate =
         { size := r.compressedSize,
           reduction := qMul (qDiv (qSub ((blobSize content : Nat) : ℚ)
             ((r.compressedSize : Nat) : ℚ)) ((blobSize content : Nat) : ℚ)) 100,
           operations := r.operations, compressed := some r.compressed }) ∧
    (∀ e, engine content "aggressive" opts = Except.error e →
       (analyzeFile engine content opts).results.aggressive =
         { size := blobSize content, reduction := 0, operations := [],
           error := some e }) ∧
    (∀ r, engine content "aggressive" opts = Except.ok r →
       (analyzeFile engine content opts).results.aggressive =
         { size := r.compressedSize,
           reduction := qMul (qDiv (qSub ((blobSize content : Nat) : ℚ)
             ((r.compressedSize : Nat) : ℚ)) ((blobSize content : Nat) : ℚ)) 100,
           operations := r.operations, compressed := some r.compressed }) := by
  refine ⟨?_, ?_, ?_, ?_, ?_, ?_⟩ <;> intro x hx <;>
    simp [analyzeFile, previewRow, hx]

/-- C9 witness: on a header-only CSV file with non-essential-column removal
requested, the real CSV engine throws its `TypeError` at the aggressive
tier only, and the preview reports the placeholder row there while the
minimal and moderate rows are computed normally. -/
theorem C9_tier_isolation_witness :
    (analyzeFile compressCSV "a,b" csvHeaderOnlyOpts).results.aggressive =
      { size := blobSize "a,b", reduction := 0, operations := [],
        error := some "TypeError: Cannot read properties of undefined (reading 'split')" } ∧
    (analyzeFile compressCSV "a,b" csvHeaderOnlyOpts).results.minimal =
      { size := 3,
        reduction := qMul (qDiv (qSub ((blobSize "a,b" : Nat) : ℚ) ((3 : Nat) : ℚ))
          ((blobSize "a,b" : Nat) : ℚ)) 100,
        operations := [], compressed := some "a,b" } ∧
    (analyzeFile compressCSV "a,b" csvHeaderOnlyOpts).results.moderate =
      { size := 3,
        reduction := qMul (qDiv (qSub ((blobSize "a,b" : Nat) : ℚ) ((3 : Nat) : ℚ))
          ((blobSize "a,b" : Nat) : ℚ)) 100,
        operations := [], compressed := some "a,b" } :=
  ⟨(C9_tier_isolation compressCSV "a,b" csvHeaderOnlyOpts).2.2.2.2.1
      "TypeError: Cannot read properties of undefined (reading 'split')" (by rfl),
   (C9_tier_isolation compressCSV "a,b" csvHeaderOnlyOpts).2.1
      { compressed := "a,b", operations := [], originalSize := 3, compressedSize := 3 }
      (by rfl),
   (C9_tier_isolation compressCSV "a,b" csvHeaderOnlyOpts).2.2.2.1
      { compressed := "a,b", operations := [], originalSize := 3, compressedSize := 3 }
      (by rfl)⟩


/-- C10 amended theorem: (a) dropping every whitespace-only input line
before compression is exactly what `compressCSV` does — its compressed
output and operation log are invariant under pre-normalising the input
(and the removal is never logged, since the logs coincide); (b) at the
minimal tier the compressed output indeed contains no blank line (the
moderate and aggressive column-removal rewrites can introduce one, see the
counterexample). -/
theorem C10_blankline_invariant :
    (∀ (content lvl : String) (opts : CSVOptions),
       (compressCSV (normalizeBlankLines content) lvl opts).map
         (fun r => (r.compressed, r.operations)) =
       (compressCSV content lvl opts).map (fun r => (r.compressed, r.operations))) ∧
    (∀ (content : String) (opts : CSVOptions) (r : CompressionResult),
       compressCSV content "minimal" opts = Except.ok r →
       ∀ l ∈ jsSplit '\n' r.compressed, jsTrim l ≠ "") :=
  ⟨compressCSV_normalize_invariant, compressCSV_minimal_no_blank⟩

/-- C3: corrected delta round-trip — for a single-column CSV whose values
are all exact multiples of 1/100 (the granularity of the emitted two-decimal
deltas), cumulatively summing the emitted sign-prefixed deltas from the
emitted row-0 base value reconstructs every original numeric value exactly;
the original claim's within-1/100 tolerance for arbitrary numeric columns
is refuted by the drift counterexample, since per-row rounding errors
accumulate across rows. -/
theorem C3_delta_roundtrip_exact (header : String) (dataLines : List String)
    (hlen : 2 ≤ dataLines.length)
    (hheader : jsSplit ',' header = [header])
    (hvar : colNumericVariance dataLines 0 = true)
    (hsplit : ∀ l ∈ dataLines, jsSplit ',' l = [l])
    (hnum : ∀ l ∈ dataLines, ∃ v : ℚ, jsParseFloat l = some v ∧ (qMul v 100).den = 1) :
    reconstructColumn ((applyDeltaEncoding header dataLines).dataLines) =
      dataLines.map (fun l => (jsParseFloat l).getD 0) := by
  have hcent : ∀ l ∈ dataLines, (qMul ((jsParseFloat l).getD 0) 100).den = 1 := by
    intro l hl
    obtain ⟨v, hv, hden⟩ := hnum l hl
    rw [hv]
    exact hden
  have hnc : (List.range (List.length [header])).filter (colNumericVariance dataLines)
      = [0] := by
    rw [show List.range (List.length [header]) = [0] from rfl]
    simp [List.filter_cons, hvar]
  have henc : (applyDeltaEncoding header dataLines).dataLines =
      dataLines.enum.map (fun p => deltaEncodeLine dataLines [0] p.1 p.2) := by
    unfold applyDeltaEncoding
    rw [if_neg (by omega)]
    dsimp only
    rw [hheader, hnc]
    rw [if_neg (by simp)]
  rw [henc]
  cases dataLines with
  | nil => simp at hlen
  | cons l0 rest =>
    have hl0 : jsSplit ',' l0 = [l0] := hsplit l0 (List.mem_cons_self _ _)
    rw [show (l0 :: rest).enum = (0, l0) :: rest.enumFrom 1 from rfl, List.map_cons]
    dsimp only
    rw [deltaEncodeLine_single_zero _ l0 hl0]
    have hm := enumFrom_map_delta (l0 :: rest) hsplit rest 0 l0 rfl rfl
    norm_num at hm
    rw [hm]
    unfold reconstructColumn
    dsimp only
    rw [zipWith_render_parse rest (l0 :: rest)
      (fun a ha => hcent a (List.mem_cons_of_mem _ ha)) hcent]
    rw [parse_numToString ((jsParseFloat l0).getD 0) (hcent l0 (List.mem_cons_self _ _))]
    dsimp only [Option.getD_some]
    rw [List.map_cons]
    exact deltaReconstruct_zip (fun l => (jsParseFloat l).getD 0) rest l0

/-- C3 witness: on the column 1.25, 3.5, 2 the delta encoding emits a base
and two deltas whose cumulative sum returns the original values exactly. -/
theorem C3_delta_roundtrip_exact_witness :
    reconstructColumn ((applyDeltaEncoding "x" ["1.25", "3.5", "2"]).dataLines) =
      ["1.25", "3.5", "2"].map (fun l => (jsParseFloat l).getD 0) :=
  C3_delta_roundtrip_exact "x" ["1.25", "3.5", "2"] (by decide) (by decide) (by decide)
    (by decide)
    (by
      intro l hl
      simp only [List.mem_cons, List.not_mem_nil, or_false] at hl
      rcases hl with rfl | rfl | rfl
      · exact ⟨mkRat 5 4, by decide, by decide⟩
      · exact ⟨mkRat 7 2, by decide, by decide⟩
      · exact ⟨2, by decide, by decide⟩)
